import Mathlib

/-!
Verification development for the MadokaDegenBot9000 position tracker.

The repository contains two bot variants with near-identical monitoring cores:
`trading_bot.py` (`UniversalTradingBot`, CCXT-based, namespace `Universal` below)
and `production_mexc_bot.py` (`MEXCTradingBot`, namespace `MEXC` below).

Modelling conventions:
- Python dicts keyed by symbol (`self.current_positions`, `self.position_extremes`,
  `self.position_start_times`) are modelled as insertion-ordered association lists
  with the exact dict operations (`lookupA`, `upsertA`, `eraseA`).
- Python floats are modelled as rationals; `int(...)` truncation is `pyInt`,
  float `%` is `pyMod`, `round(...)` (banker's rounding) is `pyRound`.
- A position payload (a duck-typed dict in Python) becomes a structure; fields the
  code never reads are collapsed into a single `extra` field so that structural
  (in)equality of payloads remains meaningful.  A field that is present with value
  `None` is conflated with an absent field (both are falsy in every read site).
- Network effects are passed in as oracles: the fetched position list is an
  `Option (List _)` (`none` = failed fetch), the per-symbol price feed is a
  function `String → ℚ`, message delivery is `Server → _ → Except String Unit`.
-/

/-- Association-list lookup, modelling Python `d[k]` / `k in d` on an
insertion-ordered dict (first binding wins; dicts never hold duplicate keys). -/
def lookupA {α : Type} (m : List (String × α)) (k : String) : Option α :=
  match m with
  | [] => none
  | (k2, v) :: rest => if k2 = k then some v else lookupA rest k

/-- Association-list insert-or-update, modelling Python `d[k] = v`: an existing
binding is updated in place, a new binding is appended at the end. -/
def upsertA {α : Type} (m : List (String × α)) (k : String) (v : α) : List (String × α) :=
  match m with
  | [] => [(k, v)]
  | (k2, v2) :: rest => if k2 = k then (k, v) :: rest else (k2, v2) :: upsertA rest k v

/-- Association-list delete, modelling Python `d.pop(k, None)` (removes the
binding for `k` when present, no-op otherwise). -/
def eraseA {α : Type} (m : List (String × α)) (k : String) : List (String × α) :=
  match m with
  | [] => []
  | (k2, v2) :: rest => if k2 = k then rest else (k2, v2) :: eraseA rest k

/-- Python `int(x)` on a float: truncation toward zero. -/
def pyInt (q : ℚ) : ℤ :=
  if 0 ≤ q then ⌊q⌋ else -⌊-q⌋

/-- Python float `%` (result has the sign of the divisor; floor-based). -/
def pyMod (a b : ℚ) : ℚ :=
  a - b * (⌊a / b⌋ : ℤ)

/-- Python `round(x)`: round half to even. -/
def pyRound (q : ℚ) : ℤ :=
  let f := ⌊q⌋
  let r := q - (f : ℚ)
  if r < 1 / 2 then f
  else if r > 1 / 2 then f + 1
  else if f % 2 = 0 then f else f + 1

/-- Python numeric `a or b` over optional fields, with `getD 0` for the final
`or 0`: yields `a`'s value when it is present and nonzero (truthy), else `b`'s
value when present, else `0`.  Used for `position.get('size', 0) or
position.get('contracts', 0)` and the entry/mark price fallback chains. -/
def pyOr (a b : Option ℚ) : ℚ :=
  let x := a.getD 0
  if x = 0 then b.getD 0 else x

namespace MEXC

/-- One MEXC futures position payload (an entry of
`/api/v1/private/position/open_positions` `data`).  Fields read by
`production_mexc_bot.py`: `symbol`, `holdVol`, `holdAvgPrice`, `positionType`
(1 = LONG, 2 = SHORT), `leverage`.  All remaining payload fields (margin, oim,
timestamps, ...) are collapsed into `extra`, which only participates in the
structural equality test `self.current_positions[symbol] != position`. -/
structure Position where
  symbol : String
  holdVol : ℚ
  holdAvgPrice : ℚ
  positionType : ℤ
  leverage : ℚ
  extra : ℤ
deriving DecidableEq

/-- MEXCTradingBot.calculate_pnl_percentage (production_mexc_bot.py 246-268):
returns 0 when the entry price is 0 or the current price is None or 0,
otherwise the leveraged percentage price change, signed by position type. -/
def calculate_pnl_percentage (position : Position) (current_price : Option ℚ) : ℚ :=
  let entry_price := position.holdAvgPrice
  match current_price with
  | none => 0
  | some c =>
    if entry_price = 0 ∨ c = 0 then 0
    else
      let price_change_pct :=
        if position.positionType = 1 then ((c - entry_price) / entry_price) * 100
        else ((entry_price - c) / entry_price) * 100
      price_change_pct * position.leverage

/-- MEXCTradingBot.format_duration (production_mexc_bot.py 227-244): renders the
millisecond timestamp difference as seconds / minutes+seconds / hours+minutes. -/
def format_duration (start_time end_time : ℤ) : String :=
  let duration_seconds : ℚ := (((end_time : ℚ)) - ((start_time : ℚ))) / 1000
  if duration_seconds < 60 then
    toString (pyInt duration_seconds) ++ "s"
  else if duration_seconds < 3600 then
    toString (pyInt (duration_seconds / 60)) ++ "m " ++
      toString (pyInt (pyMod duration_seconds 60)) ++ "s"
  else
    toString (pyInt (duration_seconds / 3600)) ++ "h " ++
      toString (pyInt (pyMod duration_seconds 3600 / 60)) ++ "m"

end MEXC

namespace Universal

/-- One CCXT unified position payload, with the fields `trading_bot.py` reads.
Optional fields model `position.get(...)`; a field present with value `None` is
conflated with an absent field (both are falsy at every read site).  All other
payload fields are collapsed into `extra`. -/
structure Position where
  symbol : String
  side : Option String
  size : Option ℚ
  contracts : Option ℚ
  entryPrice : Option ℚ
  avgPrice : Option ℚ
  markPrice : Option ℚ
  lastPrice : Option ℚ
  leverage : Option ℚ
  initialMarginPercentage : Option ℚ
  percentage : Option ℚ
  unrealizedPnl : Option ℚ
  notional : Option ℚ
  extra : ℤ
deriving DecidableEq

/-- UniversalTradingBot.calculate_pnl_percentage (trading_bot.py 250-267): the
unified `percentage` field when present, else `unrealizedPnl / notional * 100`
when `notional > 0`, else 0.  Entry and reference prices are never consulted. -/
def calculate_pnl_percentage (position : Position) : ℚ :=
  match position.percentage with
  | some v => v
  | none =>
    match position.unrealizedPnl, position.notional with
    | some pnl, some notional =>
      if notional > 0 then (pnl / notional) * 100 else 0
    | _, _ => 0

/-- The size expression `position.get('size', 0) or position.get('contracts', 0)`
(with the trailing `or 0` of `_position_size_changed`), used at trading_bot.py
212, 272-273 and 460-461. -/
def effective_size (position : Position) : ℚ :=
  pyOr position.size position.contracts

/-- UniversalTradingBot._position_size_changed (trading_bot.py 269-276): true
iff the absolute effective sizes differ.  A payload change that leaves the
absolute size unchanged is NOT reported as changed. -/
def position_size_changed (old_position new_position : Position) : Bool :=
  decide (|effective_size old_position| ≠ |effective_size new_position|)

/-- The filter of UniversalTradingBot.get_positions (trading_bot.py 208-216):
keeps positions with nonzero effective size AND a present `side` field. -/
def active_positions (positions : List Position) : List Position :=
  positions.filter (fun p => decide (effective_size p ≠ 0) && p.side.isSome)

/-- UniversalTradingBot.format_duration (trading_bot.py 231-248); the body is
character-for-character identical to the MEXC variant. -/
def format_duration (start_time end_time : ℤ) : String :=
  let duration_seconds : ℚ := (((end_time : ℚ)) - ((start_time : ℚ))) / 1000
  if duration_seconds < 60 then
    toString (pyInt duration_seconds) ++ "s"
  else if duration_seconds < 3600 then
    toString (pyInt (duration_seconds / 60)) ++ "m " ++
      toString (pyInt (pyMod duration_seconds 60)) ++ "s"
  else
    toString (pyInt (duration_seconds / 3600)) ++ "h " ++
      toString (pyInt (pyMod duration_seconds 3600 / 60)) ++ "m"

end Universal

/-- Resize direction of a changed-but-still-open position, as encoded by the
`trade_type` strings "POSITION INCREASED (DCA)" / "POSITION REDUCED" /
"POSITION UPDATED" (trading_bot.py 463-468, production_mexc_bot.py 396-401). -/
inductive ResizeDir where
  | INCREASED
  | REDUCED
  | UNCHANGED_BUT_CHANGED
deriving DecidableEq

/-- One notification emitted by a monitoring cycle, abstracting the
`send_*`-calls of check_positions and _handle_position_closure:
`Opened` = the "NEW POSITION" send, `Resized` = the size-change send,
`Closed` = the position-closure send (carrying the computed final PnL, the
accumulated extremes, the formatted duration and the offline-note flag). -/
inductive PositionEvent (π : Type) where
  | Opened (position : π)
  | Resized (position : π) (dir : ResizeDir)
  | Closed (symbol : String) (final_pnl max_profit max_drawdown : ℚ)
      (duration : String) (started_unknown : Bool)
deriving DecidableEq

/-- The three per-symbol tracking dicts both bot classes keep in `__init__`. -/
structure BotState (π : Type) where
  current_positions : List (String × π)
  position_extremes : List (String × (ℚ × ℚ))
  position_start_times : List (String × ℤ)
deriving DecidableEq

/-- The PnL-extremes tracking block, identical in both variants
(trading_bot.py 443-450, production_mexc_bot.py 376-383): first sighting of a
symbol initializes both extremes to the current PnL, later sightings take
max / min. -/
def update_extremes (extremes : List (String × (ℚ × ℚ))) (symbol : String) (current_pnl : ℚ) :
    List (String × (ℚ × ℚ)) :=
  match lookupA extremes symbol with
  | none => upsertA extremes symbol (current_pnl, current_pnl)
  | some (max_profit, max_drawdown) =>
      upsertA extremes symbol (max max_profit current_pnl, min max_drawdown current_pnl)

/-- Iterates `update_extremes` for one symbol over a sequence of PnL
observations (one observation per monitoring cycle the symbol is present). -/
def run_extremes (extremes : List (String × (ℚ × ℚ))) (symbol : String) (obs : List ℚ) :
    List (String × (ℚ × ℚ)) :=
  obs.foldl (fun e pnl => update_extremes e symbol pnl) extremes

/-- The points in which the two variants' check_positions bodies differ.  Each
field is instantiated with the corresponding expression of one source file:
`skip` is the in-loop zero-volume `continue` (MEXC only), `pnl` the per-cycle
PnL computation, `changed` the update test, `classify` the resize
classification, `closePnl` the final PnL at closure, `fmtDuration` the
variant's format_duration. -/
structure DiffParams (π : Type) where
  symbol : π → String
  skip : π → Bool
  pnl : (String → ℚ) → π → ℚ
  changed : π → π → Bool
  classify : π → π → ResizeDir
  closePnl : (String → ℚ) → π → ℚ
  fmtDuration : ℤ → ℤ → String

/-- Accumulator of the main per-position loop of check_positions: the
`current_positions` dict being built, the two tracking dicts being mutated in
place, and the notifications sent so far (in send order). -/
structure CycleAcc (π : Type) where
  current : List (String × π)
  extremes : List (String × (ℚ × ℚ))
  starts : List (String × ℤ)
  events : List (PositionEvent π)

/-- One iteration of the main loop of check_positions
(trading_bot.py 437-471, production_mexc_bot.py 363-404): skip zero-volume
entries (MEXC), store the position into the snapshot being built, update the
extremes, then send "NEW POSITION" for unseen symbols (recording the start
time) or a resize notification when the update test fires. -/
def processPosition {π : Type} (P : DiffParams π) (prev : List (String × π))
    (price : String → ℚ) (now : ℤ) (acc : CycleAcc π) (position : π) : CycleAcc π :=
  if P.skip position then acc
  else
    let symbol := P.symbol position
    let current_pnl := P.pnl price position
    let current := upsertA acc.current symbol position
    let extremes := update_extremes acc.extremes symbol current_pnl
    match lookupA prev symbol with
    | none =>
        ⟨current, extremes, upsertA acc.starts symbol now,
          acc.events ++ [PositionEvent.Opened position]⟩
    | some old =>
        if P.changed old position then
          ⟨current, extremes, acc.starts,
            acc.events ++ [PositionEvent.Resized position (P.classify old position)]⟩
        else ⟨current, extremes, acc.starts, acc.events⟩

/-- The notification (if any) the main loop emits for one raw position:
`Opened` for a symbol absent from the stored snapshot, a classified `Resized`
when the update test fires, nothing otherwise. -/
def eventFor {π : Type} (P : DiffParams π) (prev : List (String × π)) (position : π) :
    Option (PositionEvent π) :=
  if P.skip position then none
  else
    match lookupA prev (P.symbol position) with
    | none => some (PositionEvent.Opened position)
    | some old =>
        if P.changed old position then
          some (PositionEvent.Resized position (P.classify old position))
        else none

/-- _handle_position_closure (trading_bot.py 483-539, production_mexc_bot.py
416-459): computes duration from the recorded start time (falling back to the
closure-detection time), the final PnL from the last known payload, reads the
accumulated extremes (defaulting to the final PnL), flags `started_unknown`
when no start time was recorded, then pops both tracking entries. -/
def handle_position_closure {π : Type} (P : DiffParams π) (prev : List (String × π))
    (price : String → ℚ) (now : ℤ) (extremes : List (String × (ℚ × ℚ)))
    (starts : List (String × ℤ)) (symbol : String) :
    List (String × (ℚ × ℚ)) × List (String × ℤ) × Option (PositionEvent π) :=
  match lookupA prev symbol with
  | none => (extremes, starts, none)
  | some last_position =>
    let start_time := (lookupA starts symbol).getD now
    let duration := P.fmtDuration start_time now
    let final_pnl := P.closePnl price last_position
    let ex := (lookupA extremes symbol).getD (final_pnl, final_pnl)
    (eraseA extremes symbol, eraseA starts symbol,
      some (PositionEvent.Closed symbol final_pnl ex.1 ex.2 duration
        ((lookupA starts symbol).isNone)))

/-- One iteration of the closed-position sweep of check_positions
(trading_bot.py 474-476, production_mexc_bot.py 407-409): symbols of the stored
snapshot that are missing from the freshly built one get a closure event. -/
def closeStep {π : Type} (P : DiffParams π) (prev cur : List (String × π))
    (price : String → ℚ) (now : ℤ)
    (a : List (String × (ℚ × ℚ)) × List (String × ℤ) × List (PositionEvent π))
    (kv : String × π) :
    List (String × (ℚ × ℚ)) × List (String × ℤ) × List (PositionEvent π) :=
  if (lookupA cur kv.1).isNone then
    let r := handle_position_closure P prev price now a.1 a.2.1 kv.1
    (r.1, r.2.1, a.2.2 ++ r.2.2.toList)
  else a

/-- check_positions (trading_bot.py 425-481, production_mexc_bot.py 351-414),
one monitoring cycle as a pure function: `fetched = none` models a failed
position fetch (early return, nothing touched); otherwise the main loop runs
over the fetched list, the closed-position sweep runs over the stored snapshot,
and the freshly built snapshot replaces the stored one.  Returns the new bot
state and the notifications sent, in order. -/
def check_positions_core {π : Type} (P : DiffParams π) (st : BotState π)
    (fetched : Option (List π)) (price : String → ℚ) (now : ℤ) :
    BotState π × List (PositionEvent π) :=
  match fetched with
  | none => (st, [])
  | some data =>
    let acc := data.foldl (processPosition P st.current_positions price now)
      ⟨[], st.position_extremes, st.position_start_times, []⟩
    let c := st.current_positions.foldl
      (closeStep P st.current_positions acc.current price now)
      (acc.extremes, acc.starts, [])
    (⟨acc.current, c.1, c.2.1⟩, acc.events ++ c.2.2)

namespace MEXC

/-- The resize classification of production_mexc_bot.py 396-401
(absolute `holdVol` comparison). -/
def classify_resize (old_position new_position : Position) : ResizeDir :=
  if |new_position.holdVol| > |old_position.holdVol| then ResizeDir.INCREASED
  else if |new_position.holdVol| < |old_position.holdVol| then ResizeDir.REDUCED
  else ResizeDir.UNCHANGED_BUT_CHANGED

/-- The MEXC variant's cycle parameters, read off production_mexc_bot.py:
zero-volume entries are skipped in the loop (365-369), the per-cycle PnL uses
the fetched ticker price (371-372), the update test is structural inequality of
the stored and fetched payloads (392), the final PnL at closure refetches the
price (427-428). -/
def diffParams : DiffParams Position where
  symbol := Position.symbol
  skip := fun p => decide (p.holdVol = 0)
  pnl := fun price p => calculate_pnl_percentage p (some (price p.symbol))
  changed := fun old p => decide (old ≠ p)
  classify := classify_resize
  closePnl := fun price p => calculate_pnl_percentage p (some (price p.symbol))
  fmtDuration := format_duration

/-- MEXCTradingBot.check_positions (production_mexc_bot.py 351-414). -/
def check_positions (st : BotState Position) (fetched : Option (List Position))
    (price : String → ℚ) (now : ℤ) : BotState Position × List (PositionEvent Position) :=
  check_positions_core diffParams st fetched price now

end MEXC

namespace Universal

/-- The resize classification of trading_bot.py 460-468 (absolute effective
size comparison; the UNCHANGED branch is unreachable because the update test
already requires the absolute sizes to differ). -/
def classify_resize (old_position new_position : Position) : ResizeDir :=
  if |effective_size new_position| > |effective_size old_position| then ResizeDir.INCREASED
  else if |effective_size new_position| < |effective_size old_position| then ResizeDir.REDUCED
  else ResizeDir.UNCHANGED_BUT_CHANGED

/-- The universal variant's cycle parameters, read off trading_bot.py: nothing
is skipped inside the loop (zero-size and side-less entries were already
dropped by get_positions), the per-cycle PnL comes from the payload itself
(440), the update test is _position_size_changed (459), the final PnL at
closure reuses the last stored payload (494). -/
def diffParams : DiffParams Position where
  symbol := Position.symbol
  skip := fun _ => false
  pnl := fun _ p => calculate_pnl_percentage p
  changed := position_size_changed
  classify := classify_resize
  closePnl := fun _ p => calculate_pnl_percentage p
  fmtDuration := format_duration

/-- UniversalTradingBot.check_positions (trading_bot.py 425-481). -/
def check_positions (st : BotState Position) (fetched : Option (List Position))
    (price : String → ℚ) (now : ℤ) : BotState Position × List (PositionEvent Position) :=
  check_positions_core diffParams st fetched price now

end Universal

/-- Collapse of a delivery attempt's result into the logged outcome: `none` is
the success log line, `some e` the caught-and-logged error of the per-recipient
try/except (the failure is recorded exactly once and never re-raised). -/
def deliveryOutcome (r : Except String Unit) : Option String :=
  match r with
  | Except.ok _ => none
  | Except.error e => some e

/-- One configured Discord server entry of the config (name, channel id,
role id), as read by the send loops of both variants. -/
structure Server where
  name : String
  channel_id : String
  role_id : String
deriving DecidableEq

namespace MEXC

/-- Semantic content of a formatted trade message (format_trade_message,
production_mexc_bot.py 270-310).  The emoji / markdown framing is presentation
only and is not modelled; every computed field of the message body is. -/
structure TradeMessage where
  role_id : String
  trade_type : String
  symbol : String
  side : String
  leverage : ℤ
  entry_price : ℚ
  current_price : ℚ
  pnl_pct : ℚ
  time : String
deriving DecidableEq

/-- Semantic content of a position-closed message template
(_handle_position_closure, production_mexc_bot.py 441-449); `role_id` is
"ROLE_PLACEHOLDER" until the send loop substitutes a server's role. -/
structure CloseMessage where
  role_id : String
  symbol : String
  final_pnl : ℚ
  max_profit : ℚ
  max_drawdown : ℚ
  duration : String
  started_unknown : Bool
  time : String
deriving DecidableEq

/-- A message handed to `channel.send`, either a per-server formatted trade
message or a close-template message. -/
inductive OutMessage where
  | trade (m : TradeMessage)
  | close (m : CloseMessage)
deriving DecidableEq

/-- MEXCTradingBot.format_trade_message (production_mexc_bot.py 270-310),
restricted to its semantic fields: side from positionType, leverage via
`int(float(...))`, PnL recomputed from the position and the cycle's price. -/
def format_trade_message (position : Position) (current_price : ℚ)
    (trade_type role_id : String) (now : String) : OutMessage :=
  OutMessage.trade
    { role_id := role_id
      trade_type := trade_type
      symbol := position.symbol
      side := if position.positionType = 1 then "LONG" else "SHORT"
      leverage := pyInt position.leverage
      entry_price := position.holdAvgPrice
      current_price := current_price
      pnl_pct := calculate_pnl_percentage position (some current_price)
      time := now }

/-- The `message_template.replace("ROLE_PLACEHOLDER", server['role_id'])` of
production_mexc_bot.py 340: substitutes the server's role into a template; a
trade message contains no placeholder, so it is left unchanged. -/
def substRole (m : OutMessage) (role_id : String) : OutMessage :=
  match m with
  | OutMessage.close c => OutMessage.close { c with role_id := role_id }
  | OutMessage.trade t => OutMessage.trade t

/-- The per-iteration message construction of
MEXCTradingBot.send_server_specific_message (production_mexc_bot.py 334-340): a
freshly formatted trade message when a position AND a truthy price are given —
note `0.0` is falsy — else the role-substituted template. -/
def message_for (message_template : OutMessage) (position : Option Position)
    (current_price : Option ℚ) (trade_type : String) (times : Server → String)
    (server : Server) : OutMessage :=
  match position, current_price with
  | some pos, some cp =>
      if cp = 0 then substRole message_template server.role_id
      else format_trade_message pos cp trade_type server.role_id (times server)
  | _, _ => substRole message_template server.role_id

/-- MEXCTradingBot.send_server_specific_message (production_mexc_bot.py
325-349): for each configured server, build its message and attempt delivery.
`deliver` abstracts channel lookup plus `channel.send` and can fail; `times` is
the wall clock sampled at each iteration's formatting.  Each iteration's
outcome is logged; a failure never escapes the loop.  Returns the per-server
log: (server, message built for it, `none` on success / `some e` on failure). -/
def send_server_specific_message (servers : List Server) (message_template : OutMessage)
    (position : Option Position) (current_price : Option ℚ) (trade_type : String)
    (deliver : Server → OutMessage → Except String Unit) (times : Server → String) :
    List (Server × OutMessage × Option String) :=
  servers.map (fun server =>
    (server, message_for message_template position current_price trade_type times server,
      deliveryOutcome (deliver server
        (message_for message_template position current_price trade_type times server))))

/-- One iteration of MEXCTradingBot.monitoring_loop (production_mexc_bot.py
461-476), given whether a stop was requested and whether check_positions raised:
returns (sleep duration in seconds, whether the loop breaks after this
iteration).  An error sleeps a constant 30 seconds and never breaks the loop;
an error-free iteration sleeps the configured interval and breaks only on a
requested stop. -/
def monitoring_loop_iteration (monitoring_interval : ℚ) (stop_requested : Bool)
    (cycle_error : Option String) : ℚ × Bool :=
  match cycle_error with
  | some _ => (30, false)
  | none => (monitoring_interval, stop_requested)

end MEXC

namespace Universal

/-- Semantic content of a formatted Discord trade message
(format_discord_message, trading_bot.py 278-325). -/
structure TradeMessage where
  role_id : String
  trade_type : String
  symbol : String
  side : String
  leverage : ℚ
  entry_price : ℚ
  current_price : ℚ
  pnl_pct : ℚ
  time : String
deriving DecidableEq

/-- Semantic content of a Discord position-closed message template
(_handle_position_closure, trading_bot.py 506-514). -/
structure CloseMessage where
  role_id : String
  symbol : String
  final_pnl : ℚ
  max_profit : ℚ
  max_drawdown : ℚ
  duration : String
  started_unknown : Bool
  time : String
deriving DecidableEq

/-- A message handed to a Discord channel send in the universal variant. -/
inductive OutMessage where
  | trade (m : TradeMessage)
  | close (m : CloseMessage)
deriving DecidableEq

/-- The leverage extraction of format_discord_message (trading_bot.py 287-292):
the truthy `leverage` field, else `round(100 / initialMarginPercentage)` when
that field is truthy, else 1. -/
def message_leverage (position : Position) : ℚ :=
  let fallback : ℚ :=
    match position.initialMarginPercentage with
    | some imp => if imp = 0 then 1 else ((pyRound (100 / imp) : ℤ) : ℚ)
    | none => 1
  match position.leverage with
  | some l => if l = 0 then fallback else l
  | none => fallback

/-- UniversalTradingBot.format_discord_message (trading_bot.py 278-325),
restricted to its semantic fields: entry price `entryPrice or avgPrice`, current
price `markPrice or lastPrice`, PnL from calculate_pnl_percentage on the payload
alone. -/
def format_discord_message (position : Position) (trade_type role_id : String)
    (now : String) : OutMessage :=
  OutMessage.trade
    { role_id := role_id
      trade_type := trade_type
      symbol := position.symbol
      side := (position.side.getD "unknown").toUpper
      leverage := message_leverage position
      entry_price := pyOr position.entryPrice position.avgPrice
      current_price := pyOr position.markPrice position.lastPrice
      pnl_pct := calculate_pnl_percentage position
      time := now }

/-- Role substitution into a Discord template (trading_bot.py 383). -/
def substRole (m : OutMessage) (role_id : String) : OutMessage :=
  match m with
  | OutMessage.close c => OutMessage.close { c with role_id := role_id }
  | OutMessage.trade t => OutMessage.trade t

/-- The per-iteration message construction of
UniversalTradingBot.send_discord_notifications (trading_bot.py 378-383): a
freshly formatted trade message when a position is given, else the
role-substituted template. -/
def message_for (message_template : OutMessage) (position : Option Position)
    (trade_type : String) (times : Server → String) (server : Server) : OutMessage :=
  match position with
  | some pos => format_discord_message pos trade_type server.role_id (times server)
  | none => substRole message_template server.role_id

/-- UniversalTradingBot.send_discord_notifications (trading_bot.py 371-392):
for each configured server, build its message and attempt delivery; every
failure is caught and logged inside the loop. -/
def send_discord_notifications (servers : List Server) (message_template : OutMessage)
    (position : Option Position) (trade_type : String)
    (deliver : Server → OutMessage → Except String Unit) (times : Server → String) :
    List (Server × OutMessage × Option String) :=
  servers.map (fun server =>
    (server, message_for message_template position trade_type times server,
      deliveryOutcome (deliver server
        (message_for message_template position trade_type times server))))

/-- One iteration of UniversalTradingBot.monitoring_loop (trading_bot.py
541-556); the body is identical to the MEXC variant: a raised cycle error is
caught, sleeps a constant 30 seconds and never breaks the loop. -/
def monitoring_loop_iteration (monitoring_interval : ℚ) (stop_requested : Bool)
    (cycle_error : Option String) : ℚ × Bool :=
  match cycle_error with
  | some _ => (30, false)
  | none => (monitoring_interval, stop_requested)

end Universal

/-- Event predicate: an `Opened` event for symbol `s` (under `symOf`). -/
def openedAt {π : Type} (symOf : π → String) (s : String) : PositionEvent π → Bool :=
  fun e =>
    match e with
    | PositionEvent.Opened p => decide (symOf p = s)
    | _ => false

/-- Event predicate: a `Resized` event for symbol `s` (under `symOf`). -/
def resizedAt {π : Type} (symOf : π → String) (s : String) : PositionEvent π → Bool :=
  fun e =>
    match e with
    | PositionEvent.Resized p _ => decide (symOf p = s)
    | _ => false

/-- Event predicate: a `Closed` event for symbol `s`. -/
def closedAt {π : Type} (s : String) : PositionEvent π → Bool :=
  fun e =>
    match e with
    | PositionEvent.Closed s2 _ _ _ _ _ => decide (s2 = s)
    | _ => false

/-- Event predicate: any event concerning symbol `s` (under `symOf`). -/
def eventAt {π : Type} (symOf : π → String) (s : String) : PositionEvent π → Bool :=
  fun e =>
    match e with
    | PositionEvent.Opened p => decide (symOf p = s)
    | PositionEvent.Resized p _ => decide (symOf p = s)
    | PositionEvent.Closed s2 _ _ _ _ _ => decide (s2 = s)

/-- The snapshot the main loop of check_positions builds from the fetched list
(the local `current_positions = {}` dict filled at trading_bot.py 434/441 and
production_mexc_bot.py 360/374). -/
def buildCurrent {π : Type} (P : DiffParams π) (data : List π) : List (String × π) :=
  data.foldl (fun c p => if P.skip p then c else upsertA c (P.symbol p) p) []

/-- A predicate on events that ignores the payload of `Closed` events (it may
only read the symbol).  All counting predicates used below are of this form. -/
def ClosedBlind {π : Type} (q : PositionEvent π → Bool) : Prop :=
  ∀ (s : String) (f1 mp1 md1 : ℚ) (d1 : String) (u1 : Bool) (f2 mp2 md2 : ℚ)
    (d2 : String) (u2 : Bool),
    q (PositionEvent.Closed s f1 mp1 md1 d1 u1) = q (PositionEvent.Closed s f2 mp2 md2 d2 u2)

namespace MEXC

/-- The PnL percentage a reader of the message observes. -/
def pnl_content : OutMessage → ℚ
  | OutMessage.trade t => t.pnl_pct
  | OutMessage.close c => c.final_pnl

/-- The (max profit, max drawdown) pair a reader of the message observes
(present only on close messages). -/
def extremes_content : OutMessage → Option (ℚ × ℚ)
  | OutMessage.trade _ => none
  | OutMessage.close c => some (c.max_profit, c.max_drawdown)

end MEXC

namespace Universal

/-- The PnL percentage a reader of the message observes. -/
def pnl_content : OutMessage → ℚ
  | OutMessage.trade t => t.pnl_pct
  | OutMessage.close c => c.final_pnl

/-- The (max profit, max drawdown) pair a reader of the message observes. -/
def extremes_content : OutMessage → Option (ℚ × ℚ)
  | OutMessage.trade _ => none
  | OutMessage.close c => some (c.max_profit, c.max_drawdown)

end Universal

/-- Sample MEXC position: BTC long, 1 contract, entry 100, 5x. -/
def mexcBTC : MEXC.Position := ⟨"BTC", 1, 100, 1, 5, 0⟩

/-- Sample MEXC position: ETH short, 2 contracts, entry 2000, 3x. -/
def mexcETH : MEXC.Position := ⟨"ETH", 2, 2000, 2, 3, 0⟩

/-- Sample MEXC position: the ETH position resized to 4 contracts. -/
def mexcETH4 : MEXC.Position := ⟨"ETH", 4, 1900, 2, 3, 0⟩

/-- Sample MEXC bot state holding only the ETH position. -/
def mexcStETH : BotState MEXC.Position := ⟨[("ETH", mexcETH)], [("ETH", (7, -3))], [("ETH", 0)]⟩

/-- Sample CCXT position: BTC long, size 1, entry 100. -/
def uniBTC : Universal.Position :=
  ⟨"BTC", some "long", some 1, none, some 100, none, some 105, none, some 5, none,
    some 10, none, none, 0⟩

/-- The BTC position with a moved entry price (and mark price) but unchanged
size: the payload differs structurally, the absolute size does not. -/
def uniBTCmoved : Universal.Position :=
  ⟨"BTC", some "long", some 1, none, some 102, none, some 108, none, some 5, none,
    some 10, none, none, 0⟩

/-- Sample CCXT position whose unified `percentage` field is 5 while its entry
price is 0. -/
def uniPct : Universal.Position :=
  ⟨"BTC", some "long", some 1, none, some 0, none, none, none, none, none,
    some 5, none, none, 0⟩

/-- Sample CCXT position with a nonzero size but no `side` field. -/
def uniSideless : Universal.Position :=
  ⟨"DOGE", none, some 2, none, some 1, none, none, none, none, none,
    none, none, none, 0⟩

/-- Sample universal bot state holding only the BTC position. -/
def uniStBTC : BotState Universal.Position := ⟨[("BTC", uniBTC)], [("BTC", (4, -1))], [("BTC", 0)]⟩

/-- Sample servers for dispatch scenarios. -/
def srvA : Server := ⟨"A", "100", "roleA"⟩

/-- Second sample server. -/
def srvB : Server := ⟨"B", "200", "roleB"⟩

/-- Third sample server. -/
def srvC : Server := ⟨"C", "300", "roleC"⟩

/-- Sample delivery oracle that fails exactly for `srvB`. -/
def deliverFailB : Server → MEXC.OutMessage → Except String Unit :=
  fun sv _ => if sv = srvB then Except.error "boom" else Except.ok ()

/-- Sample Discord delivery oracle (universal variant) that fails exactly for
`srvB`. -/
def deliverFailBU : Server → Universal.OutMessage → Except String Unit :=
  fun sv _ => if sv = srvB then Except.error "boom" else Except.ok ()

/-- Sample MEXC close-message template (role still unsubstituted). -/
def mexcCloseTemplate : MEXC.OutMessage :=
  MEXC.OutMessage.close ⟨"ROLE_PLACEHOLDER", "ETH", 1, 2, -3, "5s", false, "t"⟩

/-- Sample universal close-message template (role still unsubstituted). -/
def uniCloseTemplate : Universal.OutMessage :=
  Universal.OutMessage.close ⟨"ROLE_PLACEHOLDER", "BTC", 4, 6, -2, "7s", false, "t"⟩

theorem lookupA_upsertA_self {α : Type} (m : List (String × α)) (k : String) (v : α) :
    lookupA (upsertA m k v) k = some v := by
  induction m with
  | nil => simp [upsertA, lookupA]
  | cons kv rest ih =>
    obtain ⟨k2, v2⟩ := kv
    by_cases h : k2 = k
    · simp [upsertA, lookupA, h]
    · simp [upsertA, lookupA, h, ih]

theorem upsertA_of_lookupA_none {α : Type} {m : List (String × α)} {k : String}
    (v : α) (h : lookupA m k = none) : upsertA m k v = m ++ [(k, v)] := by
  induction m with
  | nil => simp [upsertA]
  | cons kv rest ih =>
    obtain ⟨k2, v2⟩ := kv
    by_cases hk : k2 = k
    · simp [lookupA, hk] at h
    · simp [lookupA, hk] at h
      simp [upsertA, hk, ih h]

theorem lookupA_append_of_none {α : Type} {m1 : List (String × α)} (m2 : List (String × α))
    {k : String} (h : lookupA m1 k = none) :
    lookupA (m1 ++ m2) k = lookupA m2 k := by
  induction m1 with
  | nil => simp
  | cons kv rest ih =>
    obtain ⟨k2, v2⟩ := kv
    by_cases hk : k2 = k
    · simp [lookupA, hk] at h
    · simp [lookupA, hk] at h ⊢
      exact ih h

theorem lookupA_isSome_iff {α : Type} (m : List (String × α)) (k : String) :
    (lookupA m k).isSome = true ↔ k ∈ m.map Prod.fst := by
  induction m with
  | nil => simp [lookupA]
  | cons kv rest ih =>
    obtain ⟨k2, v2⟩ := kv
    by_cases hk : k2 = k
    · simp [lookupA, hk]
    · simp [lookupA, hk, ih, Ne.symm hk]

theorem lookupA_eq_none_iff {α : Type} (m : List (String × α)) (k : String) :
    lookupA m k = none ↔ k ∉ m.map Prod.fst := by
  rw [← lookupA_isSome_iff]
  cases lookupA m k <;> simp

theorem lookupA_mem {α : Type} {m : List (String × α)} {k : String} {v : α}
    (h : lookupA m k = some v) : (k, v) ∈ m := by
  induction m with
  | nil => simp [lookupA] at h
  | cons kv rest ih =>
    obtain ⟨k2, v2⟩ := kv
    by_cases hk : k2 = k
    · subst hk
      simp [lookupA] at h
      simp [h]
    · simp [lookupA, hk] at h
      simp [ih h]

theorem lookupA_isSome_of_mem {α : Type} {m : List (String × α)} {k : String} {v : α}
    (h : (k, v) ∈ m) : (lookupA m k).isSome = true := by
  rw [lookupA_isSome_iff]
  exact List.mem_map_of_mem Prod.fst h

theorem lookupA_eraseA_ne {α : Type} (m : List (String × α)) {k k2 : String}
    (h : k2 ≠ k) : lookupA (eraseA m k) k2 = lookupA m k2 := by
  induction m with
  | nil => simp [eraseA]
  | cons kv rest ih =>
    obtain ⟨k3, v3⟩ := kv
    by_cases hk : k3 = k
    · subst hk
      have h2 : ¬ k3 = k2 := fun hc => h hc.symm
      simp [eraseA, lookupA, h2]
    · by_cases hk2 : k3 = k2
      · subst hk2
        simp [eraseA, lookupA, hk, fun hc => h hc]
      · simp [eraseA, lookupA, hk, hk2, ih]

theorem lookupA_eraseA_self {α : Type} {m : List (String × α)} (k : String)
    (h : (m.map Prod.fst).Nodup) : lookupA (eraseA m k) k = none := by
  induction m with
  | nil => simp [eraseA, lookupA]
  | cons kv rest ih =>
    obtain ⟨k2, v2⟩ := kv
    simp only [List.map_cons, List.nodup_cons] at h
    by_cases hk : k2 = k
    · subst hk
      simp only [eraseA, if_pos rfl]
      rw [lookupA_eq_none_iff]
      exact h.1
    · simp [eraseA, lookupA, hk, ih h.2]

theorem countP_filterMap {α β : Type} (f : α → Option β) (q : β → Bool) (l : List α) :
    (l.filterMap f).countP q = l.countP (fun a => ((f a).map q).getD false) := by
  induction l with
  | nil => simp
  | cons a rest ih =>
    cases hf : f a with
    | none => simp [List.filterMap_cons, hf, List.countP_cons, ih]
    | some b => simp [List.filterMap_cons, hf, List.countP_cons, ih]

theorem countP_eq_zero_of_key {α : Type} {l : List α} {key : α → String} {s : String}
    {q : α → Bool} (hq : ∀ a, q a = true → key a = s) (hs : s ∉ l.map key) :
    l.countP q = 0 := by
  rw [List.countP_eq_zero]
  intro a ha hqa
  exact hs (by simpa [hq a hqa] using List.mem_map_of_mem key ha)

theorem countP_key_unique {α : Type} {l : List α} (key : α → String)
    (hn : (l.map key).Nodup) {s : String} {q : α → Bool}
    (hq : ∀ a, q a = true → key a = s) :
    l.countP q = if l.any q then 1 else 0 := by
  induction l with
  | nil => simp
  | cons a rest ih =>
    simp only [List.map_cons, List.nodup_cons] at hn
    by_cases hqa : q a = true
    · have hkey : key a = s := hq a hqa
      have hzero : rest.countP q = 0 :=
        countP_eq_zero_of_key hq (by rw [← hkey]; exact hn.1)
      simp [List.countP_cons, List.any_cons, hqa, hzero]
    · simp only [List.countP_cons, hqa, if_false, add_zero, List.any_cons,
        Bool.false_or, ih hn.2]
      simp [hqa]

theorem processPosition_events {π : Type} (P : DiffParams π) (prev : List (String × π))
    (price : String → ℚ) (now : ℤ) (acc : CycleAcc π) (p : π) :
    (processPosition P prev price now acc p).events
      = acc.events ++ (eventFor P prev p).toList := by
  unfold processPosition eventFor
  by_cases hs : P.skip p = true
  · simp [hs]
  · simp only [hs, Bool.false_eq_true, if_false]
    cases hl : lookupA prev (P.symbol p) with
    | none => simp
    | some old =>
      by_cases hc : P.changed old p = true
      · simp [hc]
      · simp [hc]

theorem processPosition_current {π : Type} (P : DiffParams π) (prev : List (String × π))
    (price : String → ℚ) (now : ℤ) (acc : CycleAcc π) (p : π) :
    (processPosition P prev price now acc p).current
      = if P.skip p then acc.current else upsertA acc.current (P.symbol p) p := by
  unfold processPosition
  by_cases hs : P.skip p = true
  · simp [hs]
  · simp only [hs, Bool.false_eq_true, if_false]
    cases hl : lookupA prev (P.symbol p) with
    | none => simp
    | some old =>
      by_cases hc : P.changed old p = true
      · simp [hc]
      · simp [hc]

theorem foldl_processPosition_events {π : Type} (P : DiffParams π) (prev : List (String × π))
    (price : String → ℚ) (now : ℤ) :
    ∀ (data : List π) (acc : CycleAcc π),
      (data.foldl (processPosition P prev price now) acc).events
        = acc.events ++ data.filterMap (eventFor P prev) := by
  intro data
  induction data with
  | nil => intro acc; simp
  | cons p rest ih =>
    intro acc
    simp only [List.foldl_cons, List.filterMap_cons]
    rw [ih, processPosition_events]
    cases hf : eventFor P prev p <;> simp [hf]

theorem foldl_processPosition_current {π : Type} (P : DiffParams π) (prev : List (String × π))
    (price : String → ℚ) (now : ℤ) :
    ∀ (data : List π) (acc : CycleAcc π),
      (data.foldl (processPosition P prev price now) acc).current
        = data.foldl (fun c p => if P.skip p then c else upsertA c (P.symbol p) p) acc.current := by
  intro data
  induction data with
  | nil => intro acc; simp
  | cons p rest ih =>
    intro acc
    simp only [List.foldl_cons]
    rw [ih]
    congr 1
    exact processPosition_current P prev price now acc p

theorem buildCurrent_go {π : Type} (P : DiffParams π) :
    ∀ (data : List π) (c : List (String × π)),
      (∀ p ∈ data, P.skip p = false → lookupA c (P.symbol p) = none) →
      (data.map P.symbol).Nodup →
      data.foldl (fun c p => if P.skip p then c else upsertA c (P.symbol p) p) c
        = c ++ (data.filter (fun p => !P.skip p)).map (fun p => (P.symbol p, p)) := by
  intro data
  induction data with
  | nil => intro c _ _; simp
  | cons p rest ih =>
    intro c hfresh hnodup
    simp only [List.map_cons, List.nodup_cons] at hnodup
    by_cases hs : P.skip p = true
    · simp only [List.foldl_cons, hs, if_true]
      rw [ih c (fun q hq hsq => hfresh q (List.mem_cons_of_mem p hq) hsq) hnodup.2]
      simp [List.filter_cons, hs]
    · have hsf : P.skip p = false := by simpa using hs
      have hnone : lookupA c (P.symbol p) = none := hfresh p (List.mem_cons_self p rest) hsf
      simp only [List.foldl_cons, hsf, Bool.false_eq_true, if_false]
      rw [upsertA_of_lookupA_none p hnone]
      rw [ih (c ++ [(P.symbol p, p)]) ?_ hnodup.2]
      · simp [List.filter_cons, hsf]
      · intro q hq hsq
        rw [lookupA_eq_none_iff]
        simp only [List.map_append, List.mem_append, List.map_cons, List.map_nil,
          List.mem_singleton, not_or]
        refine ⟨?_, ?_⟩
        · rw [← lookupA_eq_none_iff]
          exact hfresh q (List.mem_cons_of_mem p hq) hsq
        · intro hc
          exact hnodup.1 (hc ▸ List.mem_map_of_mem P.symbol hq)

theorem check_positions_core_snapshot {π : Type} (P : DiffParams π) (st : BotState π)
    (data : List π) (price : String → ℚ) (now : ℤ)
    (hnodup : (data.map P.symbol).Nodup) :
    (check_positions_core P st (some data) price now).1.current_positions
      = (data.filter (fun p => !P.skip p)).map (fun p => (P.symbol p, p)) := by
  simp only [check_positions_core]
  rw [foldl_processPosition_current]
  have := buildCurrent_go P data [] (by intro p _ _; simp [lookupA]) hnodup
  simpa using this

theorem closeStep_foldl_countP {π : Type} (P : DiffParams π) (prev cur : List (String × π))
    (price : String → ℚ) (now : ℤ) (q : PositionEvent π → Bool) (hq : ClosedBlind q) :
    ∀ (iter : List (String × π))
      (a : List (String × (ℚ × ℚ)) × List (String × ℤ) × List (PositionEvent π)),
      ((iter.foldl (closeStep P prev cur price now) a).2.2).countP q
        = a.2.2.countP q
          + iter.countP (fun kv =>
              (lookupA prev kv.1).isSome && (lookupA cur kv.1).isNone
                && q (PositionEvent.Closed kv.1 0 0 0 "" false)) := by
  intro iter
  induction iter with
  | nil => intro a; simp
  | cons kv rest ih =>
    intro a
    simp only [List.foldl_cons, List.countP_cons]
    rw [ih]
    by_cases hcur : (lookupA cur kv.1).isNone = true
    · cases hprev : lookupA prev kv.1 with
      | none =>
        simp [closeStep, handle_position_closure, hcur, hprev]
      | some lp =>
        simp only [closeStep, handle_position_closure, hcur, if_true, hprev]
        simp only [Option.toList_some, List.countP_append, List.countP_cons,
          List.countP_nil, zero_add]
        rw [hq kv.1 _ _ _ _ _ 0 0 0 "" false]
        simp [hprev, hcur]
        omega
    · have hcur2 : (lookupA cur kv.1).isNone = false := by
        revert hcur; cases lookupA cur kv.1 <;> simp
      simp only [closeStep, hcur2, Bool.false_eq_true, if_false]
      simp [hcur2]

theorem closeStep_foldl_mem {π : Type} (P : DiffParams π) (prev cur : List (String × π))
    (price : String → ℚ) (now : ℤ) :
    ∀ (iter : List (String × π))
      (a : List (String × (ℚ × ℚ)) × List (String × ℤ) × List (PositionEvent π))
      (e : PositionEvent π),
      e ∈ (iter.foldl (closeStep P prev cur price now) a).2.2 →
      e ∈ a.2.2 ∨ ∃ s2 v, lookupA prev s2 = some v
        ∧ ∃ f mp md d u, e = PositionEvent.Closed s2 f mp md d u := by
  intro iter
  induction iter with
  | nil => intro a e he; exact Or.inl he
  | cons kv rest ih =>
    intro a e he
    simp only [List.foldl_cons] at he
    rcases ih _ e he with h2 | h2
    · by_cases hcur : (lookupA cur kv.1).isNone = true
      · cases hprev : lookupA prev kv.1 with
        | none =>
          simp only [closeStep, handle_position_closure, hcur, if_true, hprev,
            Option.toList_none, List.append_nil] at h2
          exact Or.inl h2
        | some lp =>
          simp only [closeStep, handle_position_closure, hcur, if_true, hprev,
            Option.toList_some, List.mem_append, List.mem_singleton] at h2
          rcases h2 with h3 | h3
          · exact Or.inl h3
          · exact Or.inr ⟨kv.1, lp, hprev, _, _, _, _, _, h3⟩
      · have hcur2 : (lookupA cur kv.1).isNone = false := by
          revert hcur; cases lookupA cur kv.1 <;> simp
        simp only [closeStep, hcur2, Bool.false_eq_true, if_false] at h2
        exact Or.inl h2
    · exact Or.inr h2

theorem check_positions_core_countP {π : Type} (P : DiffParams π) (st : BotState π)
    (data : List π) (price : String → ℚ) (now : ℤ)
    (q : PositionEvent π → Bool) (hq : ClosedBlind q) :
    ((check_positions_core P st (some data) price now).2).countP q
      = data.countP (fun p => ((eventFor P st.current_positions p).map q).getD false)
        + st.current_positions.countP (fun kv =>
            (lookupA st.current_positions kv.1).isSome
              && (lookupA (buildCurrent P data) kv.1).isNone
              && q (PositionEvent.Closed kv.1 0 0 0 "" false)) := by
  simp only [check_positions_core]
  rw [List.countP_append, foldl_processPosition_events]
  simp only [List.nil_append]
  rw [countP_filterMap]
  rw [closeStep_foldl_countP P st.current_positions _ price now q hq]
  rw [foldl_processPosition_current]
  simp [buildCurrent]

theorem check_positions_core_mem {π : Type} (P : DiffParams π) (st : BotState π)
    (data : List π) (price : String → ℚ) (now : ℤ) (e : PositionEvent π)
    (he : e ∈ (check_positions_core P st (some data) price now).2) :
    (∃ p, p ∈ data ∧ eventFor P st.current_positions p = some e)
    ∨ ∃ s2 v, lookupA st.current_positions s2 = some v
        ∧ ∃ f mp md d u, e = PositionEvent.Closed s2 f mp md d u := by
  simp only [check_positions_core, List.mem_append] at he
  rcases he with he | he
  · rw [foldl_processPosition_events] at he
    simp only [List.nil_append, List.mem_filterMap] at he
    exact Or.inl he
  · rcases closeStep_foldl_mem P st.current_positions _ price now
      st.current_positions _ e he with h2 | h2
    · simp at h2
    · exact Or.inr h2

theorem eventFor_some {π : Type} (P : DiffParams π) (prev : List (String × π)) (p : π)
    (e : PositionEvent π) (h : eventFor P prev p = some e) :
    P.skip p = false ∧
    ((lookupA prev (P.symbol p) = none ∧ e = PositionEvent.Opened p) ∨
     (∃ old, lookupA prev (P.symbol p) = some old ∧ P.changed old p = true
        ∧ e = PositionEvent.Resized p (P.classify old p))) := by
  unfold eventFor at h
  by_cases hs : P.skip p = true
  · simp [hs] at h
  · have hsf : P.skip p = false := by revert hs; cases P.skip p <;> simp
    refine ⟨hsf, ?_⟩
    simp only [hsf, Bool.false_eq_true, if_false] at h
    cases hl : lookupA prev (P.symbol p) with
    | none =>
      rw [hl] at h
      simp only [Option.some.injEq] at h
      exact Or.inl ⟨rfl, h.symm⟩
    | some old =>
      rw [hl] at h
      by_cases hc : P.changed old p = true
      · simp only [hc, if_true, Option.some.injEq] at h
        exact Or.inr ⟨old, rfl, hc, h.symm⟩
      · simp [hc] at h

theorem eventFor_map_openedAt {π : Type} (P : DiffParams π) (prev : List (String × π))
    (s : String) (p : π) :
    ((eventFor P prev p).map (openedAt P.symbol s)).getD false
      = (!P.skip p && decide (P.symbol p = s) && (lookupA prev (P.symbol p)).isNone) := by
  unfold eventFor openedAt
  by_cases hs : P.skip p = true
  · simp [hs]
  · have hsf : P.skip p = false := by revert hs; cases P.skip p <;> simp
    simp only [hsf, Bool.false_eq_true, if_false, Bool.not_false, Bool.true_and]
    cases hl : lookupA prev (P.symbol p) with
    | none => simp
    | some old =>
      by_cases hc : P.changed old p = true
      · simp [hc]
      · simp [hc]

theorem eventFor_map_resizedAt {π : Type} (P : DiffParams π) (prev : List (String × π))
    (s : String) (p : π) :
    ((eventFor P prev p).map (resizedAt P.symbol s)).getD false
      = (!P.skip p && decide (P.symbol p = s)
          && ((lookupA prev (P.symbol p)).map (fun old => P.changed old p)).getD false) := by
  unfold eventFor resizedAt
  by_cases hs : P.skip p = true
  · simp [hs]
  · have hsf : P.skip p = false := by revert hs; cases P.skip p <;> simp
    simp only [hsf, Bool.false_eq_true, if_false, Bool.not_false, Bool.true_and]
    cases hl : lookupA prev (P.symbol p) with
    | none => simp
    | some old =>
      by_cases hc : P.changed old p = true
      · simp [hc]
      · simp [hc]

theorem eventFor_map_closedAt {π : Type} (P : DiffParams π) (prev : List (String × π))
    (s : String) (p : π) :
    ((eventFor P prev p).map (closedAt s)).getD false = false := by
  unfold eventFor closedAt
  by_cases hs : P.skip p = true
  · simp [hs]
  · have hsf : P.skip p = false := by revert hs; cases P.skip p <;> simp
    simp only [hsf, Bool.false_eq_true, if_false]
    cases hl : lookupA prev (P.symbol p) with
    | none => simp
    | some old =>
      by_cases hc : P.changed old p = true
      · simp [hc]
      · simp [hc]

theorem eventFor_map_eventAt {π : Type} (P : DiffParams π) (prev : List (String × π))
    (s : String) (p : π) :
    ((eventFor P prev p).map (eventAt P.symbol s)).getD false
      = (!P.skip p && decide (P.symbol p = s)
          && ((lookupA prev (P.symbol p)).isNone
              || ((lookupA prev (P.symbol p)).map (fun old => P.changed old p)).getD false)) := by
  unfold eventFor eventAt
  by_cases hs : P.skip p = true
  · simp [hs]
  · have hsf : P.skip p = false := by revert hs; cases P.skip p <;> simp
    simp only [hsf, Bool.false_eq_true, if_false, Bool.not_false, Bool.true_and]
    cases hl : lookupA prev (P.symbol p) with
    | none => simp
    | some old =>
      by_cases hc : P.changed old p = true
      · simp [hc]
      · simp [hc]

theorem closedBlind_openedAt {π : Type} (symOf : π → String) (s : String) :
    ClosedBlind (openedAt symOf s) := by
  intro s2 f1 mp1 md1 d1 u1 f2 mp2 md2 d2 u2
  simp [openedAt]

theorem closedBlind_resizedAt {π : Type} (symOf : π → String) (s : String) :
    ClosedBlind (resizedAt symOf s) := by
  intro s2 f1 mp1 md1 d1 u1 f2 mp2 md2 d2 u2
  simp [resizedAt]

theorem closedBlind_closedAt {π : Type} (s : String) :
    ClosedBlind (closedAt (π := π) s) := by
  intro s2 f1 mp1 md1 d1 u1 f2 mp2 md2 d2 u2
  simp [closedAt]

theorem closedBlind_eventAt {π : Type} (symOf : π → String) (s : String) :
    ClosedBlind (eventAt symOf s) := by
  intro s2 f1 mp1 md1 d1 u1 f2 mp2 md2 d2 u2
  simp [eventAt]

theorem lookupA_upsertA_isSome {α : Type} (m : List (String × α)) (k k2 : String) (v : α) :
    (lookupA (upsertA m k v) k2).isSome = true
      ↔ k = k2 ∨ (lookupA m k2).isSome = true := by
  induction m with
  | nil => simp [upsertA, lookupA]
  | cons kv rest ih =>
    obtain ⟨k3, v3⟩ := kv
    by_cases hk : k3 = k
    · subst hk
      by_cases hk2 : k3 = k2
      · simp [upsertA, lookupA, hk2]
      · simp [upsertA, lookupA, hk2]
    · by_cases hk2 : k3 = k2
      · subst hk2
        simp [upsertA, lookupA, hk]
      · simp [upsertA, lookupA, hk, hk2, ih]

theorem lookupA_buildCurrent_isSome {π : Type} (P : DiffParams π) (data : List π) (s : String) :
    (lookupA (buildCurrent P data) s).isSome = true
      ↔ ∃ p, p ∈ data ∧ P.skip p = false ∧ P.symbol p = s := by
  have go : ∀ (l : List π) (c : List (String × π)),
      (lookupA (l.foldl (fun c p => if P.skip p then c else upsertA c (P.symbol p) p) c) s).isSome
          = true
        ↔ (lookupA c s).isSome = true ∨ ∃ p, p ∈ l ∧ P.skip p = false ∧ P.symbol p = s := by
    intro l
    induction l with
    | nil => intro c; simp
    | cons p rest ih =>
      intro c
      simp only [List.foldl_cons]
      by_cases hs : P.skip p = true
      · rw [if_pos hs, ih]
        constructor
        · rintro (h | ⟨q, hq, hq2, hq3⟩)
          · exact Or.inl h
          · exact Or.inr ⟨q, List.mem_cons_of_mem p hq, hq2, hq3⟩
        · rintro (h | ⟨q, hq, hq2, hq3⟩)
          · exact Or.inl h
          · rcases List.mem_cons.mp hq with rfl | hq4
            · rw [hs] at hq2; cases hq2
            · exact Or.inr ⟨q, hq4, hq2, hq3⟩
      · have hsf : P.skip p = false := by revert hs; cases P.skip p <;> simp
        rw [if_neg (by simp [hsf]), ih, lookupA_upsertA_isSome]
        constructor
        · rintro ((rfl | h) | ⟨q, hq, hq2, hq3⟩)
          · exact Or.inr ⟨p, List.mem_cons_self p rest, hsf, rfl⟩
          · exact Or.inl h
          · exact Or.inr ⟨q, List.mem_cons_of_mem p hq, hq2, hq3⟩
        · rintro (h | ⟨q, hq, hq2, hq3⟩)
          · exact Or.inl (Or.inr h)
          · rcases List.mem_cons.mp hq with rfl | hq4
            · exact Or.inl (Or.inl hq3)
            · exact Or.inr ⟨q, hq4, hq2, hq3⟩
  rw [buildCurrent, go data []]
  simp [lookupA]

theorem check_positions_core_current {π : Type} (P : DiffParams π) (st : BotState π)
    (data : List π) (price : String → ℚ) (now : ℤ) :
    (check_positions_core P st (some data) price now).1.current_positions
      = buildCurrent P data := by
  simp only [check_positions_core]
  rw [foldl_processPosition_current]
  simp [buildCurrent]

theorem bool_and_split {a b : Bool} (h : (a && b) = true) : a = true ∧ b = true := by
  simp only [Bool.and_eq_true] at h
  exact h

theorem check_opened_countP {π : Type} (P : DiffParams π) (st : BotState π)
    (data : List π) (price : String → ℚ) (now : ℤ) (s : String)
    (hd : (data.map P.symbol).Nodup) :
    ((check_positions_core P st (some data) price now).2).countP (openedAt P.symbol s)
      = if (lookupA (buildCurrent P data) s).isSome = true
            ∧ (lookupA st.current_positions s).isNone = true then 1 else 0 := by
  rw [check_positions_core_countP P st data price now _ (closedBlind_openedAt P.symbol s)]
  have h2 : st.current_positions.countP (fun kv =>
      (lookupA st.current_positions kv.1).isSome
        && (lookupA (buildCurrent P data) kv.1).isNone
        && openedAt P.symbol s (PositionEvent.Closed kv.1 0 0 0 "" false)) = 0 := by
    apply List.countP_eq_zero.mpr
    intro kv _
    simp [openedAt]
  rw [h2, add_zero]
  simp only [eventFor_map_openedAt]
  by_cases hprev : (lookupA st.current_positions s).isNone = true
  · have hcong : ∀ p ∈ data,
        ((!P.skip p && decide (P.symbol p = s)
          && (lookupA st.current_positions (P.symbol p)).isNone) = true
          ↔ (!P.skip p && decide (P.symbol p = s)) = true) := by
      intro p _
      by_cases hsym : P.symbol p = s
      · simp [hsym, hprev]
      · simp [hsym]
    rw [List.countP_congr hcong]
    rw [countP_key_unique P.symbol hd
      (fun p hp => of_decide_eq_true (bool_and_split hp).2)]
    have hiff : (data.any (fun p => !P.skip p && decide (P.symbol p = s)) = true)
        ↔ (lookupA (buildCurrent P data) s).isSome = true := by
      rw [List.any_eq_true, lookupA_buildCurrent_isSome]
      constructor
      · rintro ⟨p, hp, hpred⟩
        rcases bool_and_split hpred with ⟨h1, h3⟩
        exact ⟨p, hp, by revert h1; cases P.skip p <;> simp, of_decide_eq_true h3⟩
      · rintro ⟨p, hp, h1, h3⟩
        exact ⟨p, hp, by simp [h1, h3]⟩
    by_cases hany : data.any (fun p => !P.skip p && decide (P.symbol p = s)) = true
    · rw [if_pos hany, if_pos ⟨hiff.mp hany, hprev⟩]
    · rw [if_neg hany, if_neg (by rintro ⟨hex, _⟩; exact hany (hiff.mpr hex))]
  · rw [if_neg (by rintro ⟨_, h⟩; exact hprev h)]
    apply List.countP_eq_zero.mpr
    intro p hp hpred
    rcases bool_and_split hpred with ⟨h1, h3⟩
    rcases bool_and_split h1 with ⟨h4, h5⟩
    have hsym := of_decide_eq_true h5
    rw [hsym] at h3
    exact hprev h3

theorem check_closed_countP {π : Type} (P : DiffParams π) (st : BotState π)
    (data : List π) (price : String → ℚ) (now : ℤ) (s : String)
    (hp : (st.current_positions.map Prod.fst).Nodup) :
    ((check_positions_core P st (some data) price now).2).countP (closedAt s)
      = if (lookupA st.current_positions s).isSome = true
            ∧ (lookupA (buildCurrent P data) s).isNone = true then 1 else 0 := by
  rw [check_positions_core_countP P st data price now _ (closedBlind_closedAt s)]
  have h1 : data.countP
      (fun p => ((eventFor P st.current_positions p).map (closedAt s)).getD false) = 0 := by
    apply List.countP_eq_zero.mpr
    intro p _
    rw [eventFor_map_closedAt]
    simp
  rw [h1, zero_add]
  simp only [closedAt]
  rw [countP_key_unique Prod.fst hp
    (fun kv hkv => of_decide_eq_true (bool_and_split hkv).2)]
  have hiff : (st.current_positions.any (fun kv =>
        (lookupA st.current_positions kv.1).isSome
          && (lookupA (buildCurrent P data) kv.1).isNone && decide (kv.1 = s)) = true)
      ↔ ((lookupA st.current_positions s).isSome = true
          ∧ (lookupA (buildCurrent P data) s).isNone = true) := by
    rw [List.any_eq_true]
    constructor
    · rintro ⟨kv, hkv, hpred⟩
      rcases bool_and_split hpred with ⟨h2, h3⟩
      rcases bool_and_split h2 with ⟨h4, h5⟩
      have h6 : kv.1 = s := of_decide_eq_true h3
      rw [h6] at h4 h5
      exact ⟨h4, h5⟩
    · rintro ⟨h4, h5⟩
      have hs2 : s ∈ st.current_positions.map Prod.fst := (lookupA_isSome_iff _ _).mp h4
      obtain ⟨kv, hkv, hfst⟩ := List.mem_map.mp hs2
      exact ⟨kv, hkv, by simp [hfst, h4, h5]⟩
  by_cases hany : st.current_positions.any (fun kv =>
      (lookupA st.current_positions kv.1).isSome
        && (lookupA (buildCurrent P data) kv.1).isNone && decide (kv.1 = s)) = true
  · rw [if_pos hany, if_pos (hiff.mp hany)]
  · rw [if_neg hany, if_neg (fun hc => hany (hiff.mpr hc))]

theorem check_resized_countP {π : Type} (P : DiffParams π) (st : BotState π)
    (data : List π) (price : String → ℚ) (now : ℤ) (s : String) (p : π) (old : π)
    (hd : (data.map P.symbol).Nodup) (hmem : p ∈ data) (hsym : P.symbol p = s)
    (hskip : P.skip p = false) (hold : lookupA st.current_positions s = some old) :
    ((check_positions_core P st (some data) price now).2).countP (resizedAt P.symbol s)
      = if P.changed old p = true then 1 else 0 := by
  rw [check_positions_core_countP P st data price now _ (closedBlind_resizedAt P.symbol s)]
  have h2 : st.current_positions.countP (fun kv =>
      (lookupA st.current_positions kv.1).isSome
        && (lookupA (buildCurrent P data) kv.1).isNone
        && resizedAt P.symbol s (PositionEvent.Closed kv.1 0 0 0 "" false)) = 0 := by
    apply List.countP_eq_zero.mpr
    intro kv _
    simp [resizedAt]
  rw [h2, add_zero]
  simp only [eventFor_map_resizedAt]
  rw [countP_key_unique P.symbol hd
    (fun q hq => of_decide_eq_true (bool_and_split (bool_and_split hq).1).2)]
  have hiff : (data.any (fun q => !P.skip q && decide (P.symbol q = s)
        && ((lookupA st.current_positions (P.symbol q)).map
            (fun old2 => P.changed old2 q)).getD false) = true)
      ↔ P.changed old p = true := by
    rw [List.any_eq_true]
    constructor
    · rintro ⟨q, hq, hpred⟩
      rcases bool_and_split hpred with ⟨h3, h4⟩
      rcases bool_and_split h3 with ⟨h5, h6⟩
      have hsq : P.symbol q = s := of_decide_eq_true h6
      have hqp : q = p := List.inj_on_of_nodup_map hd hq hmem (by rw [hsq, hsym])
      subst hqp
      rw [hsq, hold] at h4
      simpa using h4
    · intro hch
      refine ⟨p, hmem, ?_⟩
      rw [hsym]
      simp [hskip, hold, hch]
  by_cases hany : data.any (fun q => !P.skip q && decide (P.symbol q = s)
      && ((lookupA st.current_positions (P.symbol q)).map
          (fun old2 => P.changed old2 q)).getD false) = true
  · rw [if_pos hany, if_pos (hiff.mp hany)]
  · rw [if_neg hany, if_neg (fun hc => hany (hiff.mpr hc))]

theorem check_eventAt_zero {π : Type} (P : DiffParams π) (st : BotState π)
    (data : List π) (price : String → ℚ) (now : ℤ) (s : String) (p : π) (old : π)
    (hd : (data.map P.symbol).Nodup) (hmem : p ∈ data) (hsym : P.symbol p = s)
    (hskip : P.skip p = false) (hold : lookupA st.current_positions s = some old)
    (hch : P.changed old p = false) :
    ((check_positions_core P st (some data) price now).2).countP (eventAt P.symbol s) = 0 := by
  rw [check_positions_core_countP P st data price now _ (closedBlind_eventAt P.symbol s)]
  have h1 : data.countP
      (fun q => ((eventFor P st.current_positions q).map (eventAt P.symbol s)).getD false) = 0 := by
    apply List.countP_eq_zero.mpr
    intro q hq hpred
    rw [eventFor_map_eventAt] at hpred
    rcases bool_and_split hpred with ⟨h3, h4⟩
    rcases bool_and_split h3 with ⟨h5, h6⟩
    have hsq : P.symbol q = s := of_decide_eq_true h6
    have hqp : q = p := List.inj_on_of_nodup_map hd hq hmem (by rw [hsq, hsym])
    subst hqp
    rw [hsq, hold] at h4
    simp [hch] at h4
  have h2 : st.current_positions.countP (fun kv =>
      (lookupA st.current_positions kv.1).isSome
        && (lookupA (buildCurrent P data) kv.1).isNone
        && eventAt P.symbol s (PositionEvent.Closed kv.1 0 0 0 "" false)) = 0 := by
    apply List.countP_eq_zero.mpr
    intro kv _ hpred
    rcases bool_and_split hpred with ⟨h3, h4⟩
    rcases bool_and_split h3 with ⟨h5, h6⟩
    have hkvs : kv.1 = s := of_decide_eq_true (by simpa [eventAt] using h4)
    rw [hkvs] at h6
    have hsome : (lookupA (buildCurrent P data) s).isSome = true :=
      (lookupA_buildCurrent_isSome P data s).mpr ⟨p, hmem, hskip, hsym⟩
    rw [Option.isNone_iff_eq_none] at h6
    rw [h6] at hsome
    simp at hsome
  rw [h1, h2]

theorem check_resized_mem {π : Type} (P : DiffParams π) (st : BotState π)
    (data : List π) (price : String → ℚ) (now : ℤ) (s : String) (p : π) (old : π)
    (hmem : p ∈ data) (hsym : P.symbol p = s) (hskip : P.skip p = false)
    (hold : lookupA st.current_positions s = some old) (hch : P.changed old p = true) :
    PositionEvent.Resized p (P.classify old p)
      ∈ (check_positions_core P st (some data) price now).2 := by
  simp only [check_positions_core, List.mem_append]
  left
  rw [foldl_processPosition_events]
  simp only [List.nil_append, List.mem_filterMap]
  refine ⟨p, hmem, ?_⟩
  unfold eventFor
  rw [hsym, hold]
  simp [hskip, hch]

theorem check_resized_only_both {π : Type} (P : DiffParams π) (st : BotState π)
    (data : List π) (price : String → ℚ) (now : ℤ) (s : String)
    (e : PositionEvent π) (he : e ∈ (check_positions_core P st (some data) price now).2)
    (hr : resizedAt P.symbol s e = true) :
    (lookupA st.current_positions s).isSome = true
      ∧ (lookupA (buildCurrent P data) s).isSome = true := by
  rcases check_positions_core_mem P st data price now e he with ⟨p, hp, hf⟩ | ⟨s2, v, hv, hshape⟩
  · rcases eventFor_some P st.current_positions p e hf with ⟨hskip, hcases⟩
    rcases hcases with ⟨hnone, hop⟩ | ⟨old, hsome, hch, hrs⟩
    · rw [hop] at hr
      simp [resizedAt] at hr
    · rw [hrs] at hr
      have hsp : P.symbol p = s := of_decide_eq_true (by simpa [resizedAt] using hr)
      rw [hsp] at hsome
      constructor
      · rw [hsome]; rfl
      · exact (lookupA_buildCurrent_isSome P data s).mpr ⟨p, hp, hskip, hsp⟩
  · obtain ⟨f, mp2, md, d, u, he2⟩ := hshape
    rw [he2] at hr
    simp [resizedAt] at hr

/-- C4: if fetching the position list fails (no usable data), the cycle emits
zero PositionEvents and leaves the stored snapshot, the extremes map and the
start-time map unchanged, in both variants; in particular no Closed event is
generated for any symbol of the previous snapshot. -/
theorem c4_fetch_failure_noop :
    (∀ (st : BotState MEXC.Position) (price : String → ℚ) (now : ℤ),
      MEXC.check_positions st none price now = (st, []))
    ∧ (∀ (st : BotState Universal.Position) (price : String → ℚ) (now : ℤ),
      Universal.check_positions st none price now = (st, [])) := by
  exact ⟨fun st price now => rfl, fun st price now => rfl⟩

/-- C2 counterexample: the universal variant's PnL calculator does not return 0
for a position whose entry price is 0 — with the unified `percentage` field
present (value 5) it returns 5, ignoring entry and reference prices entirely,
so the claimed contract fails on this concrete position. -/
theorem c2_counterexample :
    uniPct.entryPrice = some 0 ∧ Universal.calculate_pnl_percentage uniPct = 5
      ∧ (5 : ℚ) ≠ 0 := by
  refine ⟨rfl, rfl, by norm_num⟩

/-- C2 amended: the MEXC variant's PnL calculator satisfies the claimed
contract exactly (0 when entry price is 0 or the reference price is missing or
0; otherwise the leveraged long/short formula; total in all other cases); the
universal variant's calculator instead returns the exchange-supplied
`percentage` field whenever present, regardless of entry price. -/
theorem c2_pnl_contract :
    (∀ p : MEXC.Position, MEXC.calculate_pnl_percentage p none = 0)
    ∧ (∀ (p : MEXC.Position) (cp : Option ℚ), p.holdAvgPrice = 0 →
        MEXC.calculate_pnl_percentage p cp = 0)
    ∧ (∀ p : MEXC.Position, MEXC.calculate_pnl_percentage p (some 0) = 0)
    ∧ (∀ (p : MEXC.Position) (c : ℚ), p.holdAvgPrice ≠ 0 → c ≠ 0 →
        MEXC.calculate_pnl_percentage p (some c)
          = (if p.positionType = 1 then (c - p.holdAvgPrice) / p.holdAvgPrice
             else (p.holdAvgPrice - c) / p.holdAvgPrice) * 100 * p.leverage)
    ∧ (∀ (p : Universal.Position) (v : ℚ), p.percentage = some v →
        Universal.calculate_pnl_percentage p = v) := by
  refine ⟨fun p => rfl, ?_, ?_, ?_, ?_⟩
  · intro p cp h
    unfold MEXC.calculate_pnl_percentage
    cases cp with
    | none => rfl
    | some c => simp [h]
  · intro p
    unfold MEXC.calculate_pnl_percentage
    simp
  · intro p c he hc
    have hcond : ¬ (p.holdAvgPrice = 0 ∨ c = 0) := by
      rintro (h | h)
      · exact he h
      · exact hc h
    by_cases ht : p.positionType = 1
    · simp only [MEXC.calculate_pnl_percentage, if_neg hcond, if_pos ht]
    · simp only [MEXC.calculate_pnl_percentage, if_neg hcond, if_neg ht]
  · intro p v h
    unfold Universal.calculate_pnl_percentage
    rw [h]

/-- C2 witness: the amended contract evaluated on concrete inputs — a 5x long
from entry 100 at reference 110 yields +50 percent; a zero reference price
yields 0; the universal calculator returns the raw percentage field. -/
theorem c2_pnl_contract_witness :
    MEXC.calculate_pnl_percentage mexcBTC (some 110) = 50
    ∧ MEXC.calculate_pnl_percentage mexcBTC (some 0) = 0
    ∧ Universal.calculate_pnl_percentage uniPct = 5 := by
  refine ⟨?_, c2_pnl_contract.2.2.1 mexcBTC, c2_pnl_contract.2.2.2.2 uniPct 5 rfl⟩
  have h := c2_pnl_contract.2.2.2.1 mexcBTC 110 (by norm_num [mexcBTC]) (by norm_num)
  rw [h]
  norm_num [mexcBTC]

/-- C5: the extremes tracker initializes both extremes to the first observed
PnL, updates by max / min (so max_profit never decreases and max_drawdown never
increases along any observation sequence), and after a close removed the entry a
re-opened position starts fresh from its first new observation. -/
theorem c5_extremes_monotone :
    (∀ (ext : List (String × (ℚ × ℚ))) (s : String) (pnl : ℚ),
        lookupA ext s = none →
        lookupA (update_extremes ext s pnl) s = some (pnl, pnl))
    ∧ (∀ (ext : List (String × (ℚ × ℚ))) (s : String) (pnl mp md : ℚ),
        lookupA ext s = some (mp, md) →
        lookupA (update_extremes ext s pnl) s = some (max mp pnl, min md pnl)
          ∧ mp ≤ max mp pnl ∧ min md pnl ≤ md)
    ∧ (∀ (ext : List (String × (ℚ × ℚ))) (s : String) (mp md : ℚ) (obs : List ℚ),
        lookupA ext s = some (mp, md) →
        ∃ mp2 md2, lookupA (run_extremes ext s obs) s = some (mp2, md2)
          ∧ mp ≤ mp2 ∧ md2 ≤ md)
    ∧ (∀ (ext : List (String × (ℚ × ℚ))) (s : String) (pnl : ℚ),
        (ext.map Prod.fst).Nodup →
        lookupA (update_extremes (eraseA ext s) s pnl) s = some (pnl, pnl)) := by
  have hinit : ∀ (ext : List (String × (ℚ × ℚ))) (s : String) (pnl : ℚ),
      lookupA ext s = none → lookupA (update_extremes ext s pnl) s = some (pnl, pnl) := by
    intro ext s pnl h
    unfold update_extremes
    rw [h]
    exact lookupA_upsertA_self ext s (pnl, pnl)
  have hstep : ∀ (ext : List (String × (ℚ × ℚ))) (s : String) (pnl mp md : ℚ),
      lookupA ext s = some (mp, md) →
      lookupA (update_extremes ext s pnl) s = some (max mp pnl, min md pnl) := by
    intro ext s pnl mp md h
    unfold update_extremes
    rw [h]
    exact lookupA_upsertA_self ext s _
  refine ⟨hinit, ?_, ?_, ?_⟩
  · intro ext s pnl mp md h
    exact ⟨hstep ext s pnl mp md h, le_max_left mp pnl, min_le_left md pnl⟩
  · intro ext s mp md obs
    induction obs generalizing ext mp md with
    | nil =>
      intro h
      exact ⟨mp, md, h, le_refl mp, le_refl md⟩
    | cons o rest ih =>
      intro h
      simp only [run_extremes, List.foldl_cons]
      have h2 := hstep ext s o mp md h
      obtain ⟨mp2, md2, h3, h4, h5⟩ := ih (update_extremes ext s o) (max mp o) (min md o) h2
      rw [run_extremes] at h3
      exact ⟨mp2, md2, h3, le_trans (le_max_left mp o) h4, le_trans h5 (min_le_left md o)⟩
  · intro ext s pnl hn
    exact hinit _ s pnl (lookupA_eraseA_self s hn)

/-- C5 witness: concrete extremes runs — first observation 3 initializes to
(3, 3); an existing (7, -3) observed at 10 moves to (10, -3); after erasing,
the next observation 1 re-initializes to (1, 1). -/
theorem c5_extremes_monotone_witness :
    lookupA (update_extremes [] "BTC" 3) "BTC" = some (3, 3)
    ∧ lookupA (update_extremes [("ETH", ((7 : ℚ), (-3 : ℚ)))] "ETH" 10) "ETH" = some (10, -3)
    ∧ lookupA (update_extremes (eraseA [("ETH", ((7 : ℚ), (-3 : ℚ)))] "ETH") "ETH" 1) "ETH"
        = some (1, 1) := by
  refine ⟨c5_extremes_monotone.1 [] "BTC" 3 rfl, ?_,
    c5_extremes_monotone.2.2.2 [("ETH", ((7 : ℚ), (-3 : ℚ)))] "ETH" 1 (by simp)⟩
  have h := (c5_extremes_monotone.2.1 [("ETH", ((7 : ℚ), (-3 : ℚ)))] "ETH" 10 7 (-3)
    (by decide)).1
  rw [h]
  norm_num

/-- C7 counterexample: with a configured monitoring interval of 15 seconds, the
back-off sleep after a raising cycle is the constant 30 seconds, which is NOT at
least 3 times the normal interval (45). -/
theorem c7_counterexample :
    (MEXC.monitoring_loop_iteration 15 false (some "error")).1 = 30
    ∧ ¬ (3 * (15 : ℚ) ≤ (MEXC.monitoring_loop_iteration 15 false (some "error")).1) := by
  constructor
  · rfl
  · show ¬ (3 * (15 : ℚ) ≤ 30)
    norm_num

/-- C7 amended: a raising cycle is caught and followed by a constant 30-second
back-off, and never terminates the loop; that back-off is at least 3 times the
interval only when the interval is at most 10 (the default); an error-free
cycle sleeps exactly the configured interval.  Both variants behave
identically. -/
theorem c7_monitoring_backoff :
    (∀ (i : ℚ) (stop : Bool) (e : String),
        MEXC.monitoring_loop_iteration i stop (some e) = (30, false))
    ∧ (∀ (i : ℚ) (stop : Bool), (MEXC.monitoring_loop_iteration i stop none).1 = i)
    ∧ (∀ i : ℚ, i ≤ 10 → ∀ (stop : Bool) (e : String),
        3 * i ≤ (MEXC.monitoring_loop_iteration i stop (some e)).1)
    ∧ (∀ (i : ℚ) (stop : Bool) (e : Option String),
        Universal.monitoring_loop_iteration i stop e
          = MEXC.monitoring_loop_iteration i stop e) := by
  refine ⟨fun i stop e => rfl, fun i stop => rfl, ?_, fun i stop e => rfl⟩
  intro i hi stop e
  show 3 * i ≤ 30
  linarith

/-- C7 witness: at the default interval 10 the 30-second back-off is exactly 3
times the interval. -/
theorem c7_monitoring_backoff_witness :
    3 * (10 : ℚ) ≤ (MEXC.monitoring_loop_iteration 10 false (some "x")).1 :=
  c7_monitoring_backoff.2.2.1 10 (by norm_num) false "x"

/-- C9: for timestamps with start ≤ end and d the whole-second difference,
format_duration renders "{s}s" when d < 60, "{m}m {s}s" (minutes and remaining
seconds) when 60 ≤ d < 3600, and "{h}h {m}m" (hours and remaining minutes)
otherwise; the two variants' formatters agree. -/
theorem c9_format_duration (start_time end_time : ℤ) (h : start_time ≤ end_time) :
    (MEXC.format_duration start_time end_time
      = (if (end_time - start_time) / 1000 < 60 then
          toString ((end_time - start_time) / 1000) ++ "s"
        else if (end_time - start_time) / 1000 < 3600 then
          toString ((end_time - start_time) / 1000 / 60) ++ "m "
            ++ toString ((end_time - start_time) / 1000 % 60) ++ "s"
        else
          toString ((end_time - start_time) / 1000 / 3600) ++ "h "
            ++ toString ((end_time - start_time) / 1000 % 3600 / 60) ++ "m"))
    ∧ Universal.format_duration start_time end_time
        = MEXC.format_duration start_time end_time := by
  refine ⟨?_, rfl⟩
  have hms : 0 ≤ end_time - start_time := sub_nonneg.mpr h
  obtain ⟨n, hn⟩ := Int.eq_ofNat_of_zero_le hms
  have hq : ((end_time : ℚ)) - ((start_time : ℚ)) = ((n : ℕ) : ℚ) := by
    have h2 := congrArg (fun z : ℤ => (z : ℚ)) hn
    push_cast at h2
    linarith
  have hfl : ∀ k : ℕ, 0 < k → ⌊((n : ℚ)) / ((k : ℕ) : ℚ)⌋ = ((n / k : ℕ) : ℤ) := by
    intro k hk
    rw [show ((n : ℚ)) = (((n : ℤ) : ℚ)) by push_cast; ring]
    rw [Rat.floor_intCast_div_natCast]
    norm_cast
  have hfl1000 : ⌊((n : ℚ)) / 1000⌋ = ((n / 1000 : ℕ) : ℤ) := by
    have := hfl 1000 (by norm_num)
    simpa using this
  have hfl60000 : ⌊((n : ℚ)) / 1000 / 60⌋ = ((n / 60000 : ℕ) : ℤ) := by
    rw [div_div, show ((1000 : ℚ) * 60) = 60000 by norm_num]
    have := hfl 60000 (by norm_num)
    simpa using this
  have hfl3600000 : ⌊((n : ℚ)) / 1000 / 3600⌋ = ((n / 3600000 : ℕ) : ℤ) := by
    rw [div_div, show ((1000 : ℚ) * 3600) = 3600000 by norm_num]
    have := hfl 3600000 (by norm_num)
    simpa using this
  have h1 : pyInt (((n : ℚ)) / 1000) = ((n / 1000 : ℕ) : ℤ) := by
    unfold pyInt
    rw [if_pos (by positivity)]
    exact hfl1000
  have h2 : pyInt (((n : ℚ)) / 1000 / 60) = ((n / 60000 : ℕ) : ℤ) := by
    unfold pyInt
    rw [if_pos (by positivity)]
    exact hfl60000
  have h4 : pyInt (((n : ℚ)) / 1000 / 3600) = ((n / 3600000 : ℕ) : ℤ) := by
    unfold pyInt
    rw [if_pos (by positivity)]
    exact hfl3600000
  have hmod60 : pyMod (((n : ℚ)) / 1000) 60
      = ((n : ℚ)) / 1000 - (((60 * ((n / 60000 : ℕ) : ℤ) : ℤ)) : ℚ) := by
    unfold pyMod
    rw [hfl60000]
    push_cast
    ring
  have hmodnonneg : (0 : ℚ) ≤ ((n : ℚ)) / 1000 - (((60 * ((n / 60000 : ℕ) : ℤ) : ℤ)) : ℚ) := by
    have hle : ((((n / 60000 : ℕ) : ℤ)) : ℚ) ≤ ((n : ℚ)) / 1000 / 60 := by
      rw [← hfl60000]
      exact Int.floor_le _
    have h60 : (60 : ℚ) * (((n : ℚ)) / 1000 / 60) = ((n : ℚ)) / 1000 := by ring
    have key : (((60 * ((n / 60000 : ℕ) : ℤ) : ℤ)) : ℚ)
        = 60 * ((((n / 60000 : ℕ) : ℤ)) : ℚ) := by push_cast; ring
    rw [key]
    linarith
  have h3 : pyInt (pyMod (((n : ℚ)) / 1000) 60) = ((n / 1000 % 60 : ℕ) : ℤ) := by
    rw [hmod60]
    unfold pyInt
    rw [if_pos hmodnonneg]
    rw [Int.floor_sub_int, hfl1000]
    omega
  have hmod3600 : pyMod (((n : ℚ)) / 1000) 3600 / 60
      = ((n : ℚ)) / 1000 / 60 - (((60 * ((n / 3600000 : ℕ) : ℤ) : ℤ)) : ℚ) := by
    unfold pyMod
    rw [hfl3600000]
    push_cast
    ring
  have hmod3600nonneg : (0 : ℚ) ≤ ((n : ℚ)) / 1000 / 60
      - (((60 * ((n / 3600000 : ℕ) : ℤ) : ℤ)) : ℚ) := by
    have hle : ((((n / 3600000 : ℕ) : ℤ)) : ℚ) ≤ ((n : ℚ)) / 1000 / 3600 := by
      rw [← hfl3600000]
      exact Int.floor_le _
    have h36 : (3600 : ℚ) * (((n : ℚ)) / 1000 / 3600) = ((n : ℚ)) / 1000 := by ring
    have key : (((60 * ((n / 3600000 : ℕ) : ℤ) : ℤ)) : ℚ)
        = 60 * ((((n / 3600000 : ℕ) : ℤ)) : ℚ) := by push_cast; ring
    rw [key]
    have hdiv : ((n : ℚ)) / 1000 / 3600 * 60 = ((n : ℚ)) / 1000 / 60 := by ring
    nlinarith [hle, h36]
  have h5 : pyInt (pyMod (((n : ℚ)) / 1000) 3600 / 60) = ((n / 1000 % 3600 / 60 : ℕ) : ℤ) := by
    rw [hmod3600]
    unfold pyInt
    rw [if_pos hmod3600nonneg]
    rw [Int.floor_sub_int, hfl60000]
    omega
  have ha1 : (((n : ℚ)) / 1000 < 60) ↔ (n < 60000) := by
    rw [div_lt_iff (by norm_num : (0 : ℚ) < 1000)]
    constructor
    · intro hx
      exact_mod_cast (by linarith : ((n : ℚ)) < 60000)
    · intro hx
      have : ((n : ℚ)) < 60000 := by exact_mod_cast hx
      linarith
  have ha2 : (((n : ℚ)) / 1000 < 3600) ↔ (n < 3600000) := by
    rw [div_lt_iff (by norm_num : (0 : ℚ) < 1000)]
    constructor
    · intro hx
      exact_mod_cast (by linarith : ((n : ℚ)) < 3600000)
    · intro hx
      have : ((n : ℚ)) < 3600000 := by exact_mod_cast hx
      linarith
  have hb1 : (((n : ℕ) : ℤ) / 1000 < 60) ↔ (n < 60000) := by omega
  have hb2 : (((n : ℕ) : ℤ) / 1000 < 3600) ↔ (n < 3600000) := by omega
  simp only [MEXC.format_duration]
  rw [hq, hn]
  have e1 : (((n : ℕ) : ℤ)) / 1000 = ((n / 1000 : ℕ) : ℤ) := by omega
  have e2 : (((n : ℕ) : ℤ)) / 1000 / 60 = ((n / 60000 : ℕ) : ℤ) := by omega
  have e3 : (((n : ℕ) : ℤ)) / 1000 % 60 = ((n / 1000 % 60 : ℕ) : ℤ) := by omega
  have e4 : (((n : ℕ) : ℤ)) / 1000 / 3600 = ((n / 3600000 : ℕ) : ℤ) := by omega
  have e5 : (((n : ℕ) : ℤ)) / 1000 % 3600 / 60 = ((n / 1000 % 3600 / 60 : ℕ) : ℤ) := by omega
  by_cases hc1 : n < 60000
  · rw [if_pos (ha1.mpr hc1), if_pos (hb1.mpr hc1), h1, e1]
  · rw [if_neg (fun hx => hc1 (ha1.mp hx)), if_neg (fun hx => hc1 (hb1.mp hx))]
    by_cases hc2 : n < 3600000
    · rw [if_pos (ha2.mpr hc2), if_pos (hb2.mpr hc2), h2, h3, e2, e3]
    · rw [if_neg (fun hx => hc2 (ha2.mp hx)), if_neg (fun hx => hc2 (hb2.mp hx)),
        h4, h5, e4, e5]

/-- C9 witness: 75000 ms formats as one minute and fifteen seconds. -/
theorem c9_format_duration_witness :
    MEXC.format_duration 0 75000 = "1m 15s"
    ∧ Universal.format_duration 0 75000 = MEXC.format_duration 0 75000 := by
  have h := c9_format_duration 0 75000 (by norm_num)
  refine ⟨?_, h.2⟩
  rw [h.1]
  decide

/-- C1: under the snapshot invariant (unique symbols in the fetched list and in
the stored dict), one diff cycle emits exactly one Opened event per symbol
present in the freshly built snapshot but not in the stored one, exactly one
Closed event per symbol present in the stored snapshot but not in the fresh
one, Resized events only for symbols present in both, and the stored snapshot
is replaced by exactly the freshly built one (no merging or carryover) — in
both variants. -/
theorem c1_diff_partition :
    (∀ (st : BotState MEXC.Position) (data : List MEXC.Position)
        (price : String → ℚ) (now : ℤ),
      (data.map MEXC.Position.symbol).Nodup →
      (st.current_positions.map Prod.fst).Nodup →
      (∀ s : String,
        ((MEXC.check_positions st (some data) price now).2).countP
            (openedAt MEXC.Position.symbol s)
          = if (lookupA (MEXC.check_positions st (some data) price now).1.current_positions
                  s).isSome = true
                ∧ (lookupA st.current_positions s).isNone = true then 1 else 0)
      ∧ (∀ s : String,
        ((MEXC.check_positions st (some data) price now).2).countP (closedAt s)
          = if (lookupA st.current_positions s).isSome = true
                ∧ (lookupA (MEXC.check_positions st (some data) price now).1.current_positions
                    s).isNone = true then 1 else 0)
      ∧ (∀ (s : String) (e : PositionEvent MEXC.Position),
          e ∈ (MEXC.check_positions st (some data) price now).2 →
          resizedAt MEXC.Position.symbol s e = true →
          (lookupA st.current_positions s).isSome = true
            ∧ (lookupA (MEXC.check_positions st (some data) price now).1.current_positions
                s).isSome = true)
      ∧ (MEXC.check_positions st (some data) price now).1.current_positions
          = (data.filter (fun p => !(decide (p.holdVol = 0)))).map (fun p => (p.symbol, p)))
    ∧ (∀ (st : BotState Universal.Position) (data : List Universal.Position)
        (price : String → ℚ) (now : ℤ),
      (data.map Universal.Position.symbol).Nodup →
      (st.current_positions.map Prod.fst).Nodup →
      (∀ s : String,
        ((Universal.check_positions st (some data) price now).2).countP
            (openedAt Universal.Position.symbol s)
          = if (lookupA (Universal.check_positions st (some data) price now).1.current_positions
                  s).isSome = true
                ∧ (lookupA st.current_positions s).isNone = true then 1 else 0)
      ∧ (∀ s : String,
        ((Universal.check_positions st (some data) price now).2).countP (closedAt s)
          = if (lookupA st.current_positions s).isSome = true
                ∧ (lookupA (Universal.check_positions st (some data) price now).1.current_positions
                    s).isNone = true then 1 else 0)
      ∧ (∀ (s : String) (e : PositionEvent Universal.Position),
          e ∈ (Universal.check_positions st (some data) price now).2 →
          resizedAt Universal.Position.symbol s e = true →
          (lookupA st.current_positions s).isSome = true
            ∧ (lookupA (Universal.check_positions st (some data) price now).1.current_positions
                s).isSome = true)
      ∧ (Universal.check_positions st (some data) price now).1.current_positions
          = data.map (fun p => (p.symbol, p))) := by
  constructor
  · intro st data price now hd hp
    have hcur := check_positions_core_current MEXC.diffParams st data price now
    refine ⟨?_, ?_, ?_, ?_⟩
    · intro s
      simp only [MEXC.check_positions]
      simp only [hcur]
      exact check_opened_countP MEXC.diffParams st data price now s hd
    · intro s
      simp only [MEXC.check_positions]
      simp only [hcur]
      exact check_closed_countP MEXC.diffParams st data price now s hp
    · intro s e he hr
      simp only [MEXC.check_positions] at he ⊢
      simp only [hcur]
      exact check_resized_only_both MEXC.diffParams st data price now s e he hr
    · simp only [MEXC.check_positions]
      exact check_positions_core_snapshot MEXC.diffParams st data price now hd
  · intro st data price now hd hp
    have hcur := check_positions_core_current Universal.diffParams st data price now
    refine ⟨?_, ?_, ?_, ?_⟩
    · intro s
      simp only [Universal.check_positions]
      simp only [hcur]
      exact check_opened_countP Universal.diffParams st data price now s hd
    · intro s
      simp only [Universal.check_positions]
      simp only [hcur]
      exact check_closed_countP Universal.diffParams st data price now s hp
    · intro s e he hr
      simp only [Universal.check_positions] at he ⊢
      simp only [hcur]
      exact check_resized_only_both Universal.diffParams st data price now s e he hr
    · simp only [Universal.check_positions]
      have := check_positions_core_snapshot Universal.diffParams st data price now hd
      rw [this]
      simp [Universal.diffParams]

/-- C1 witness: a concrete MEXC cycle where BTC is fetched while only ETH was
stored emits exactly one Opened for BTC and one Closed for ETH, and the stored
snapshot becomes exactly the fetched BTC entry; a concrete universal cycle with
an empty fetch result closes the stored BTC position. -/
theorem c1_diff_partition_witness :
    ((MEXC.check_positions mexcStETH (some [mexcBTC]) (fun _ => 110) 1000).2).countP
        (openedAt MEXC.Position.symbol "BTC") = 1
    ∧ ((MEXC.check_positions mexcStETH (some [mexcBTC]) (fun _ => 110) 1000).2).countP
        (closedAt "ETH") = 1
    ∧ (MEXC.check_positions mexcStETH (some [mexcBTC]) (fun _ => 110) 1000).1.current_positions
        = [("BTC", mexcBTC)]
    ∧ ((Universal.check_positions uniStBTC (some []) (fun _ => 0) 1000).2).countP
        (closedAt "BTC") = 1 := by
  have h := c1_diff_partition.1 mexcStETH [mexcBTC] (fun _ => 110) 1000 (by decide) (by decide)
  have hu := c1_diff_partition.2 uniStBTC [] (fun _ => 0) 1000 (by decide) (by decide)
  have hsnap : (MEXC.check_positions mexcStETH (some [mexcBTC])
      (fun _ => 110) 1000).1.current_positions = [("BTC", mexcBTC)] := by
    rw [h.2.2.2]
    rfl
  have husnap : (Universal.check_positions uniStBTC (some [])
      (fun _ => 0) 1000).1.current_positions = [] := by
    rw [hu.2.2.2]
    rfl
  have h1 := h.1 "BTC"
  have h2 := h.2.1 "ETH"
  have hu2 := hu.2.1 "BTC"
  rw [hsnap] at h1 h2
  rw [husnap] at hu2
  rw [if_pos (by decide)] at h1 h2
  rw [if_pos (by decide)] at hu2
  exact ⟨h1, h2, hsnap, hu2⟩


theorem countP_decide_eq_one {α : Type} [DecidableEq α] {l : List α} {a : α}
    (hn : l.Nodup) (hm : a ∈ l) : l.countP (fun x => decide (x = a)) = 1 := by
  induction l with
  | nil => cases hm
  | cons b rest ih =>
    rw [List.nodup_cons] at hn
    rcases List.mem_cons.mp hm with rfl | hm2
    · have hz : rest.countP (fun x => decide (x = a)) = 0 := by
        apply List.countP_eq_zero.mpr
        intro x hx hpred
        have hxa := of_decide_eq_true hpred
        subst hxa
        exact hn.1 hx
      simp [List.countP_cons, hz]
    · have hb : ¬ (b = a) := fun hc => hn.1 (hc ▸ hm2)
      simp [List.countP_cons, hb, ih hn.2 hm2]

theorem dispatch_map_fst {μ : Type} (servers : List Server) (msgFor : Server → μ)
    (deliver : Server → μ → Except String Unit) :
    (servers.map (fun server => (server, msgFor server,
        deliveryOutcome (deliver server (msgFor server))))).map Prod.fst = servers := by
  rw [List.map_map]
  have h : (Prod.fst ∘ fun server : Server => ((server, msgFor server,
      deliveryOutcome (deliver server (msgFor server))) : Server × μ × Option String)) = id := by
    funext server
    rfl
  rw [h, List.map_id]

theorem dispatch_countP_fail {μ : Type} (servers : List Server) (msgFor : Server → μ)
    (deliver : Server → μ → Except String Unit) (sv : Server) (err : String)
    (hn : servers.Nodup) (hm : sv ∈ servers) (hfail : ∀ m, deliver sv m = Except.error err) :
    (servers.map (fun server => (server, msgFor server,
        deliveryOutcome (deliver server (msgFor server))))).countP
      (fun x => decide (x.1 = sv) && x.2.2.isSome) = 1 := by
  rw [List.countP_map]
  have hcong : ∀ a ∈ servers,
      ((decide (a = sv) && (deliveryOutcome (deliver a (msgFor a))).isSome) = true
        ↔ decide (a = sv) = true) := by
    intro a ha
    by_cases hasv : a = sv
    · subst hasv
      simp [hfail, deliveryOutcome]
    · simp [hasv]
  exact Eq.trans (by exact List.countP_congr hcong) (countP_decide_eq_one hn hm)

/-- C6: in both variants' send loops, when delivery to one configured recipient
fails, every recipient (the failing one included) still gets exactly one
delivery attempt in the same cycle with its own independent outcome, the
failure is recorded exactly once, and the loop itself completes normally. -/
theorem c6_fanout_isolation :
    (∀ (servers : List Server) (template : MEXC.OutMessage)
        (position : Option MEXC.Position) (current_price : Option ℚ) (trade_type : String)
        (deliver : Server → MEXC.OutMessage → Except String Unit) (times : Server → String)
        (sv : Server) (err : String),
      servers.Nodup → sv ∈ servers → (∀ m, deliver sv m = Except.error err) →
      ((MEXC.send_server_specific_message servers template position current_price trade_type
          deliver times).map Prod.fst = servers)
      ∧ (∀ sv2 ∈ servers,
          (sv2, MEXC.message_for template position current_price trade_type times sv2,
            deliveryOutcome (deliver sv2
              (MEXC.message_for template position current_price trade_type times sv2)))
          ∈ MEXC.send_server_specific_message servers template position current_price trade_type
              deliver times)
      ∧ ((MEXC.send_server_specific_message servers template position current_price trade_type
          deliver times).countP (fun x => decide (x.1 = sv) && x.2.2.isSome) = 1))
    ∧ (∀ (servers : List Server) (template : Universal.OutMessage)
        (position : Option Universal.Position) (trade_type : String)
        (deliver : Server → Universal.OutMessage → Except String Unit) (times : Server → String)
        (sv : Server) (err : String),
      servers.Nodup → sv ∈ servers → (∀ m, deliver sv m = Except.error err) →
      ((Universal.send_discord_notifications servers template position trade_type
          deliver times).map Prod.fst = servers)
      ∧ (∀ sv2 ∈ servers,
          (sv2, Universal.message_for template position trade_type times sv2,
            deliveryOutcome (deliver sv2
              (Universal.message_for template position trade_type times sv2)))
          ∈ Universal.send_discord_notifications servers template position trade_type
              deliver times)
      ∧ ((Universal.send_discord_notifications servers template position trade_type
          deliver times).countP (fun x => decide (x.1 = sv) && x.2.2.isSome) = 1)) := by
  constructor
  · intro servers template position current_price trade_type deliver times sv err hn hm hfail
    refine ⟨?_, ?_, ?_⟩
    · exact dispatch_map_fst servers
        (MEXC.message_for template position current_price trade_type times) deliver
    · intro sv2 hsv2
      exact List.mem_map_of_mem _ hsv2
    · exact dispatch_countP_fail servers
        (MEXC.message_for template position current_price trade_type times) deliver sv err
        hn hm hfail
  · intro servers template position trade_type deliver times sv err hn hm hfail
    refine ⟨?_, ?_, ?_⟩
    · exact dispatch_map_fst servers
        (Universal.message_for template position trade_type times) deliver
    · intro sv2 hsv2
      exact List.mem_map_of_mem _ hsv2
    · exact dispatch_countP_fail servers
        (Universal.message_for template position trade_type times) deliver sv err hn hm hfail

/-- C6 witness: with three configured servers and delivery failing exactly for
the second one, all three get their attempt (in order) and the failure is
recorded exactly once, in both variants. -/
theorem c6_fanout_isolation_witness :
    ((MEXC.send_server_specific_message [srvA, srvB, srvC] mexcCloseTemplate none none ""
        deliverFailB (fun _ => "t")).map Prod.fst = [srvA, srvB, srvC])
    ∧ ((MEXC.send_server_specific_message [srvA, srvB, srvC] mexcCloseTemplate none none ""
        deliverFailB (fun _ => "t")).countP
        (fun x => decide (x.1 = srvB) && x.2.2.isSome) = 1)
    ∧ ((Universal.send_discord_notifications [srvA, srvB, srvC] uniCloseTemplate none ""
        deliverFailBU (fun _ => "t")).countP
        (fun x => decide (x.1 = srvB) && x.2.2.isSome) = 1) := by
  have h := c6_fanout_isolation.1 [srvA, srvB, srvC] mexcCloseTemplate none none ""
    deliverFailB (fun _ => "t") srvB "boom" (by decide) (by decide)
    (by intro m; simp [deliverFailB])
  have hu := c6_fanout_isolation.2 [srvA, srvB, srvC] uniCloseTemplate none ""
    deliverFailBU (fun _ => "t") srvB "boom" (by decide) (by decide)
    (by intro m; simp [deliverFailBU])
  exact ⟨h.1, h.2.2, hu.2.2⟩

theorem mexc_substRole_pnl (m : MEXC.OutMessage) (r : String) :
    MEXC.pnl_content (MEXC.substRole m r) = MEXC.pnl_content m := by
  cases m <;> rfl

theorem mexc_substRole_extremes (m : MEXC.OutMessage) (r : String) :
    MEXC.extremes_content (MEXC.substRole m r) = MEXC.extremes_content m := by
  cases m <;> rfl

theorem uni_substRole_pnl (m : Universal.OutMessage) (r : String) :
    Universal.pnl_content (Universal.substRole m r) = Universal.pnl_content m := by
  cases m <;> rfl

theorem uni_substRole_extremes (m : Universal.OutMessage) (r : String) :
    Universal.extremes_content (Universal.substRole m r) = Universal.extremes_content m := by
  cases m <;> rfl

theorem mexc_message_for_content (template : MEXC.OutMessage) (position : Option MEXC.Position)
    (current_price : Option ℚ) (trade_type : String) (times : Server → String)
    (sv1 sv2 : Server) :
    MEXC.pnl_content (MEXC.message_for template position current_price trade_type times sv1)
      = MEXC.pnl_content (MEXC.message_for template position current_price trade_type times sv2)
    ∧ MEXC.extremes_content
        (MEXC.message_for template position current_price trade_type times sv1)
      = MEXC.extremes_content
          (MEXC.message_for template position current_price trade_type times sv2) := by
  cases position with
  | none =>
    cases current_price with
    | none =>
      simp only [MEXC.message_for]
      rw [mexc_substRole_pnl, mexc_substRole_pnl,
        mexc_substRole_extremes, mexc_substRole_extremes]
      exact ⟨rfl, rfl⟩
    | some cp =>
      simp only [MEXC.message_for]
      rw [mexc_substRole_pnl, mexc_substRole_pnl,
        mexc_substRole_extremes, mexc_substRole_extremes]
      exact ⟨rfl, rfl⟩
  | some pos =>
    cases current_price with
    | none =>
      simp only [MEXC.message_for]
      rw [mexc_substRole_pnl, mexc_substRole_pnl,
        mexc_substRole_extremes, mexc_substRole_extremes]
      exact ⟨rfl, rfl⟩
    | some cp =>
      by_cases hz : cp = 0
      · simp only [MEXC.message_for, if_pos hz]
        rw [mexc_substRole_pnl, mexc_substRole_pnl,
          mexc_substRole_extremes, mexc_substRole_extremes]
        exact ⟨rfl, rfl⟩
      · simp only [MEXC.message_for, if_neg hz]
        exact ⟨rfl, rfl⟩

theorem uni_message_for_content (template : Universal.OutMessage)
    (position : Option Universal.Position) (trade_type : String) (times : Server → String)
    (sv1 sv2 : Server) :
    Universal.pnl_content (Universal.message_for template position trade_type times sv1)
      = Universal.pnl_content (Universal.message_for template position trade_type times sv2)
    ∧ Universal.extremes_content (Universal.message_for template position trade_type times sv1)
      = Universal.extremes_content
          (Universal.message_for template position trade_type times sv2) := by
  cases position with
  | none =>
    simp only [Universal.message_for]
    rw [uni_substRole_pnl, uni_substRole_pnl, uni_substRole_extremes, uni_substRole_extremes]
    exact ⟨rfl, rfl⟩
  | some pos =>
    simp only [Universal.message_for]
    exact ⟨rfl, rfl⟩

/-- C8: any two entries of one dispatch cycle's log carry the same PnL
percentage and the same extremes values in their messages — per-recipient
formatting varies only the role mention and the sampled wall-clock string,
never the computed numeric content; in both variants. -/
theorem c8_recipient_content_equal :
    (∀ (servers : List Server) (template : MEXC.OutMessage)
        (position : Option MEXC.Position) (current_price : Option ℚ) (trade_type : String)
        (deliver : Server → MEXC.OutMessage → Except String Unit) (times : Server → String)
        (e1 e2 : Server × MEXC.OutMessage × Option String),
      e1 ∈ MEXC.send_server_specific_message servers template position current_price trade_type
          deliver times →
      e2 ∈ MEXC.send_server_specific_message servers template position current_price trade_type
          deliver times →
      MEXC.pnl_content e1.2.1 = MEXC.pnl_content e2.2.1
        ∧ MEXC.extremes_content e1.2.1 = MEXC.extremes_content e2.2.1)
    ∧ (∀ (servers : List Server) (template : Universal.OutMessage)
        (position : Option Universal.Position) (trade_type : String)
        (deliver : Server → Universal.OutMessage → Except String Unit) (times : Server → String)
        (e1 e2 : Server × Universal.OutMessage × Option String),
      e1 ∈ Universal.send_discord_notifications servers template position trade_type
          deliver times →
      e2 ∈ Universal.send_discord_notifications servers template position trade_type
          deliver times →
      Universal.pnl_content e1.2.1 = Universal.pnl_content e2.2.1
        ∧ Universal.extremes_content e1.2.1 = Universal.extremes_content e2.2.1) := by
  constructor
  · intro servers template position current_price trade_type deliver times e1 e2 h1 h2
    simp only [MEXC.send_server_specific_message] at h1 h2
    obtain ⟨s1, hs1, rfl⟩ := List.mem_map.mp h1
    obtain ⟨s2, hs2, rfl⟩ := List.mem_map.mp h2
    exact mexc_message_for_content template position current_price trade_type times s1 s2
  · intro servers template position trade_type deliver times e1 e2 h1 h2
    simp only [Universal.send_discord_notifications] at h1 h2
    obtain ⟨s1, hs1, rfl⟩ := List.mem_map.mp h1
    obtain ⟨s2, hs2, rfl⟩ := List.mem_map.mp h2
    exact uni_message_for_content template position trade_type times s1 s2

/-- C8 witness: for a concrete cycle formatting the same BTC position for two
servers, both formatted messages carry the same PnL percentage. -/
theorem c8_recipient_content_equal_witness :
    MEXC.pnl_content (MEXC.message_for mexcCloseTemplate (some mexcBTC) (some 110)
        "NEW POSITION" (fun _ => "t") srvA)
      = MEXC.pnl_content (MEXC.message_for mexcCloseTemplate (some mexcBTC) (some 110)
          "NEW POSITION" (fun _ => "t") srvB)
    ∧ Universal.pnl_content (Universal.message_for uniCloseTemplate (some uniBTC)
        "NEW POSITION" (fun _ => "t") srvA)
      = Universal.pnl_content (Universal.message_for uniCloseTemplate (some uniBTC)
          "NEW POSITION" (fun _ => "t") srvB) := by
  have h := c8_recipient_content_equal.1 [srvA, srvB] mexcCloseTemplate (some mexcBTC)
    (some 110) "NEW POSITION" (fun _ _ => Except.ok ()) (fun _ => "t")
    (srvA, MEXC.message_for mexcCloseTemplate (some mexcBTC) (some 110) "NEW POSITION"
      (fun _ => "t") srvA, none)
    (srvB, MEXC.message_for mexcCloseTemplate (some mexcBTC) (some 110) "NEW POSITION"
      (fun _ => "t") srvB, none)
    (List.mem_map_of_mem _ (by decide)) (List.mem_map_of_mem _ (by decide))
  have hu := c8_recipient_content_equal.2 [srvA, srvB] uniCloseTemplate (some uniBTC)
    "NEW POSITION" (fun _ _ => Except.ok ()) (fun _ => "t")
    (srvA, Universal.message_for uniCloseTemplate (some uniBTC) "NEW POSITION"
      (fun _ => "t") srvA, none)
    (srvB, Universal.message_for uniCloseTemplate (some uniBTC) "NEW POSITION"
      (fun _ => "t") srvB, none)
    (List.mem_map_of_mem _ (by decide)) (List.mem_map_of_mem _ (by decide))
  exact ⟨h.1, hu.1⟩

/-- C3 counterexample: in the universal variant, a position whose payload
differs from the stored one (entry and mark price moved) but whose absolute
size is unchanged emits NO event at all — the claimed
Resized(UNCHANGED_BUT_CHANGED) event is never produced, because the update
test _position_size_changed only fires on absolute-size changes. -/
theorem c3_counterexample :
    uniBTC ≠ uniBTCmoved
    ∧ Universal.position_size_changed uniBTC uniBTCmoved = false
    ∧ (Universal.check_positions uniStBTC (some [uniBTCmoved]) (fun _ => 0) 1000).2 = [] := by
  refine ⟨by decide, by decide, by decide⟩

/-- C3 amended: in the MEXC variant the claim holds as stated — any payload
change of a symbol present in both snapshots emits exactly one Resized event,
classified INCREASED / REDUCED / UNCHANGED_BUT_CHANGED by absolute-size
comparison, and an unchanged payload emits no event for that symbol.  In the
universal variant a Resized event is emitted exactly when the absolute
effective size changes (classified INCREASED or REDUCED, never
UNCHANGED_BUT_CHANGED), and a payload change without a size change emits no
event. -/
theorem c3_resize_classification :
    (∀ (st : BotState MEXC.Position) (data : List MEXC.Position) (price : String → ℚ)
        (now : ℤ) (s : String) (p old : MEXC.Position),
      (data.map MEXC.Position.symbol).Nodup →
      p ∈ data → p.symbol = s → p.holdVol ≠ 0 →
      lookupA st.current_positions s = some old →
      ((old ≠ p →
        ((MEXC.check_positions st (some data) price now).2).countP
            (resizedAt MEXC.Position.symbol s) = 1
        ∧ PositionEvent.Resized p (MEXC.classify_resize old p)
            ∈ (MEXC.check_positions st (some data) price now).2)
      ∧ (old = p →
        ((MEXC.check_positions st (some data) price now).2).countP
            (eventAt MEXC.Position.symbol s) = 0)))
    ∧ (∀ (st : BotState Universal.Position) (data : List Universal.Position)
        (price : String → ℚ) (now : ℤ) (s : String) (p old : Universal.Position),
      (data.map Universal.Position.symbol).Nodup →
      p ∈ data → p.symbol = s →
      lookupA st.current_positions s = some old →
      ((Universal.position_size_changed old p = true →
        ((Universal.check_positions st (some data) price now).2).countP
            (resizedAt Universal.Position.symbol s) = 1
        ∧ PositionEvent.Resized p (Universal.classify_resize old p)
            ∈ (Universal.check_positions st (some data) price now).2
        ∧ Universal.classify_resize old p ≠ ResizeDir.UNCHANGED_BUT_CHANGED)
      ∧ (Universal.position_size_changed old p = false →
        ((Universal.check_positions st (some data) price now).2).countP
            (eventAt Universal.Position.symbol s) = 0))) := by
  constructor
  · intro st data price now s p old hd hmem hsym hvol hold
    have hskip : MEXC.diffParams.skip p = false := by simp [MEXC.diffParams, hvol]
    constructor
    · intro hne
      have hch : MEXC.diffParams.changed old p = true := by simp [MEXC.diffParams, hne]
      constructor
      · have h2 := check_resized_countP MEXC.diffParams st data price now s p old
          hd hmem hsym hskip hold
        rw [if_pos hch] at h2
        exact h2
      · exact check_resized_mem MEXC.diffParams st data price now s p old
          hmem hsym hskip hold hch
    · intro heq
      have hch : MEXC.diffParams.changed old p = false := by simp [MEXC.diffParams, heq]
      exact check_eventAt_zero MEXC.diffParams st data price now s p old
        hd hmem hsym hskip hold hch
  · intro st data price now s p old hd hmem hsym hold
    have hskip : Universal.diffParams.skip p = false := rfl
    constructor
    · intro hch
      have hch2 : Universal.diffParams.changed old p = true := hch
      refine ⟨?_, ?_, ?_⟩
      · have h2 := check_resized_countP Universal.diffParams st data price now s p old
          hd hmem hsym hskip hold
        rw [if_pos hch2] at h2
        exact h2
      · exact check_resized_mem Universal.diffParams st data price now s p old
          hmem hsym hskip hold hch
      · have hne : |Universal.effective_size old| ≠ |Universal.effective_size p| :=
          of_decide_eq_true hch
        unfold Universal.classify_resize
        by_cases hgt : |Universal.effective_size p| > |Universal.effective_size old|
        · simp [hgt]
        · have hle : |Universal.effective_size p| ≤ |Universal.effective_size old| :=
            not_lt.mp hgt
          have hlt : |Universal.effective_size p| < |Universal.effective_size old| :=
            lt_of_le_of_ne hle (fun hc => hne hc.symm)
          simp [hgt, hlt]
    · intro hch
      exact check_eventAt_zero Universal.diffParams st data price now s p old
        hd hmem hsym hskip hold hch

/-- C3 witness: a concrete MEXC cycle where the stored ETH position grows from
2 to 4 contracts emits exactly one Resized(INCREASED) event; a concrete
universal cycle with a price-only payload change emits no event at all. -/
theorem c3_resize_classification_witness :
    ((MEXC.check_positions mexcStETH (some [mexcETH4]) (fun _ => 1900) 1000).2).countP
        (resizedAt MEXC.Position.symbol "ETH") = 1
    ∧ PositionEvent.Resized mexcETH4 (MEXC.classify_resize mexcETH mexcETH4)
        ∈ (MEXC.check_positions mexcStETH (some [mexcETH4]) (fun _ => 1900) 1000).2
    ∧ ((Universal.check_positions uniStBTC (some [uniBTCmoved]) (fun _ => 0) 1000).2).countP
        (eventAt Universal.Position.symbol "BTC") = 0 := by
  have h := (c3_resize_classification.1 mexcStETH [mexcETH4] (fun _ => 1900) 1000 "ETH"
    mexcETH4 mexcETH (by decide) (by decide) rfl (by decide) (by decide)).1 (by decide)
  have hu := (c3_resize_classification.2 uniStBTC [uniBTCmoved] (fun _ => 0) 1000 "BTC"
    uniBTCmoved uniBTC (by decide) (by decide) rfl (by decide)).2 (by decide)
  exact ⟨h.1, h.2, hu⟩

/-- C10: the universal variant's get_positions filter drops every position
whose side field is missing, regardless of its (nonzero) size, so no event of
a monitoring cycle ever concerns a side-less position: Opened and Resized
events carry positions with a present side, and every Closed event's symbol
maps in the stored snapshot to a position with a present side (given the
invariant that the stored snapshot only holds previously fetched, filtered
positions). -/
theorem c10_sideless_excluded :
    (∀ (raw : List Universal.Position) (p : Universal.Position),
        p.side = none → p ∉ Universal.active_positions raw)
    ∧ (∀ (st : BotState Universal.Position) (raw : List Universal.Position)
        (price : String → ℚ) (now : ℤ),
      (∀ kv ∈ st.current_positions, kv.2.side ≠ none) →
      ∀ e ∈ (Universal.check_positions st
          (some (Universal.active_positions raw)) price now).2,
        (∀ q, e = PositionEvent.Opened q → q.side ≠ none)
        ∧ (∀ q d, e = PositionEvent.Resized q d → q.side ≠ none)
        ∧ (∀ s f mp md d u, e = PositionEvent.Closed s f mp md d u →
            ∃ v, lookupA st.current_positions s = some v ∧ v.side ≠ none)) := by
  constructor
  · intro raw p hside hmem
    unfold Universal.active_positions at hmem
    rw [List.mem_filter] at hmem
    rcases bool_and_split hmem.2 with ⟨_, hs⟩
    rw [hside] at hs
    simp at hs
  · intro st raw price now hprev e he
    simp only [Universal.check_positions] at he
    rcases check_positions_core_mem Universal.diffParams st _ price now e he with
      ⟨p, hp, hf⟩ | ⟨s2, v, hv, f, mp, md, d, u, hshape⟩
    · have hside : p.side ≠ none := by
        unfold Universal.active_positions at hp
        rw [List.mem_filter] at hp
        rcases bool_and_split hp.2 with ⟨_, hs⟩
        intro hc
        rw [hc] at hs
        simp at hs
      rcases eventFor_some Universal.diffParams st.current_positions p e hf with ⟨_, hcases⟩
      rcases hcases with ⟨_, hop⟩ | ⟨old, _, _, hrs⟩
      · subst hop
        refine ⟨?_, ?_, ?_⟩
        · intro q hq
          injection hq with h2
          rw [← h2]
          exact hside
        · intro q d2 hq
          simp at hq
        · intro s f mp md d u hq
          simp at hq
      · subst hrs
        refine ⟨?_, ?_, ?_⟩
        · intro q hq
          simp at hq
        · intro q d2 hq
          injection hq with h2 h3
          rw [← h2]
          exact hside
        · intro s f mp md d u hq
          simp at hq
    · subst hshape
      refine ⟨?_, ?_, ?_⟩
      · intro q hq
        simp at hq
      · intro q d2 hq
        simp at hq
      · intro s f2 mp2 md2 d2 u2 hq
        injection hq with h1 h2 h3 h4 h5 h6
        rw [← h1]
        exact ⟨v, hv, hprev _ (lookupA_mem hv)⟩

/-- C10 witness: a side-less DOGE position with size 2 is excluded from the
built snapshot, and the closure event of the stored (sided) BTC position points
back to a position with a present side. -/
theorem c10_sideless_excluded_witness :
    uniSideless ∉ Universal.active_positions [uniSideless]
    ∧ ∃ v, lookupA uniStBTC.current_positions "BTC" = some v ∧ v.side ≠ none := by
  refine ⟨c10_sideless_excluded.1 [uniSideless] uniSideless rfl, ?_⟩
  have hev : (Universal.check_positions uniStBTC
      (some (Universal.active_positions [uniSideless])) (fun _ => 0) 1000).2
      = [PositionEvent.Closed "BTC" 10 4 (-1) (Universal.format_duration 0 1000) false] := rfl
  have h := (c10_sideless_excluded.2 uniStBTC [uniSideless] (fun _ => 0) 1000
    (by decide)
    (PositionEvent.Closed "BTC" 10 4 (-1) (Universal.format_duration 0 1000) false)
    (by rw [hev]; exact List.mem_singleton.mpr rfl)).2.2
    "BTC" 10 4 (-1) (Universal.format_duration 0 1000) false rfl
  exact h
